import Mathlib

/-!
# merge-seed-to-registry.js

A shallow embedding of `convertSeedToRegistry` and `main` of
`src/merge-seed-to-registry.js`, and the properties of the merge pass.

Values are the trees that `JSON.parse` returns, extended with `undefined`
(the result of reading an absent property).  The seed file is taken to be a
JSON array of objects; the registry file may hold any JSON value.  Numbers are
integers (the program only compares them and stores an array length).
The system clock is a sequence of readings: every `new Date().toISOString()`
consumes the next one.
-/

set_option autoImplicit false

namespace MergeSeed

/-! ## Values -/

/-- A JavaScript value as produced by `JSON.parse`, plus `undefined`. -/
inductive JsVal where
  | undefined : JsVal
  | null : JsVal
  | bool (b : Bool) : JsVal
  | num (n : Int) : JsVal
  | str (s : String) : JsVal
  | arr (items : List JsVal) : JsVal
  | obj (fields : List (String × JsVal)) : JsVal

/-- The own properties of an object, in property order. -/
abbrev Obj := List (String × JsVal)

/-- The exceptions the program can raise while it works on parsed values. -/
inductive JsErr where
  | typeError : JsErr
  deriving DecidableEq, Repr

/-- Own-property read on an object: the first binding of `k`, `undefined`
when there is none. -/
def lookupField (k : String) : Obj → JsVal
  | [] => JsVal.undefined
  | (k', v) :: rest => if k' = k then v else lookupField k rest

/-- Property write on an object: an existing property keeps its place and
takes the new value, a new property goes last. -/
def setField (k : String) (v : JsVal) : Obj → Obj
  | [] => [(k, v)]
  | (k', v') :: rest => if k' = k then (k, v) :: rest else (k', v') :: setField k v rest

/-- The `length` of a string: its number of UTF-16 code units. -/
def utf16Length (s : String) : Nat :=
  s.toList.foldl (fun n c => n + (if c.toNat < 65536 then 1 else 2)) 0

/-- The read `v.k`, for the property names the program uses (`servers`,
`metadata`, `server`, `name`, `length`): reading from `undefined` or `null`
throws a TypeError, an object gives its own property, an array and a string
give their `length`, every other read is `undefined`. -/
def getProp (v : JsVal) (k : String) : Except JsErr JsVal :=
  match v with
  | JsVal.undefined => Except.error JsErr.typeError
  | JsVal.null => Except.error JsErr.typeError
  | JsVal.obj fs => Except.ok (lookupField k fs)
  | JsVal.arr xs => Except.ok (if k = "length" then JsVal.num xs.length else JsVal.undefined)
  | JsVal.str s => Except.ok (if k = "length" then JsVal.num (utf16Length s) else JsVal.undefined)
  | JsVal.bool _ => Except.ok JsVal.undefined
  | JsVal.num _ => Except.ok JsVal.undefined

/-- The write `v.k = x` in a non-strict script: on `undefined` or `null` it
throws a TypeError, on an object it stores the property, on a primitive it is
silently dropped, and on an array it stores a property that is not an element
(the tree that is serialised is unchanged). -/
def setProp (v : JsVal) (k : String) (x : JsVal) : Except JsErr JsVal :=
  match v with
  | JsVal.undefined => Except.error JsErr.typeError
  | JsVal.null => Except.error JsErr.typeError
  | JsVal.obj fs => Except.ok (JsVal.obj (setField k x fs))
  | other => Except.ok other

/-- The chained read `v.k₁.k₂…`. -/
def getPath (v : JsVal) : List String → Except JsErr JsVal
  | [] => Except.ok v
  | k :: ks =>
    match getProp v k with
    | Except.error e => Except.error e
    | Except.ok w => getPath w ks

/-- Strict equality `a === b`.  Primitives compare by value.  Arrays and
objects compare by identity, and two distinct nodes of parsed trees are never
the same object, so the comparison of two of them is `false`. -/
def strictEq : JsVal → JsVal → Bool
  | JsVal.undefined, JsVal.undefined => true
  | JsVal.null, JsVal.null => true
  | JsVal.bool a, JsVal.bool b => a == b
  | JsVal.num a, JsVal.num b => a == b
  | JsVal.str a, JsVal.str b => a == b
  | _, _ => false

/-- A value that is neither an array nor an object. -/
def isPrimitive : JsVal → Bool
  | JsVal.arr _ => false
  | JsVal.obj _ => false
  | _ => true

/-! ### Conversion to a string -/

mutual
/-- Whether the conversion of the value to a string, as in a template literal
`${v}`, throws a TypeError.  A primitive and `undefined` always convert.  An
object converts through `Object.prototype.toString` unless it has an own
property `toString`: a parsed value is never callable, and `valueOf` then gives
back the object, so the conversion throws.  An array converts through `join`,
which converts every element other than `undefined` and `null`. -/
def toStringThrows : JsVal → Bool
  | JsVal.obj fs => fs.any (fun kv => kv.1 == "toString")
  | JsVal.arr xs => anyToStringThrows xs
  | _ => false
/-- Whether the conversion of some element of the array throws. -/
def anyToStringThrows : List JsVal → Bool
  | [] => false
  | x :: xs => toStringThrows x || anyToStringThrows xs
end

/-! ### Serialisation -/

mutual
/-- The value that the text `JSON.stringify(v, null, 2)` parses to: a property
whose value is `undefined` is left out, an array element that is `undefined`
is written as `null`, everything else is written as it is. -/
def writtenValue : JsVal → JsVal
  | JsVal.arr xs => JsVal.arr (writtenItems xs)
  | JsVal.obj fs => JsVal.obj (writtenFields fs)
  | v => v
/-- The elements of an array as they are written. -/
def writtenItems : List JsVal → List JsVal
  | [] => []
  | x :: xs =>
    (match x with
      | JsVal.undefined => JsVal.null
      | y => writtenValue y) :: writtenItems xs
/-- The properties of an object as they are written. -/
def writtenFields : List (String × JsVal) → List (String × JsVal)
  | [] => []
  | (k, x) :: fs =>
    match x with
    | JsVal.undefined => writtenFields fs
    | y => (k, writtenValue y) :: writtenFields fs
end

/-! ### Structural equality of values -/

mutual
/-- Structural equality of two values (same tree), as a boolean. -/
def JsVal.beq : JsVal → JsVal → Bool
  | JsVal.undefined, JsVal.undefined => true
  | JsVal.null, JsVal.null => true
  | JsVal.bool a, JsVal.bool b => a == b
  | JsVal.num a, JsVal.num b => a == b
  | JsVal.str a, JsVal.str b => a == b
  | JsVal.arr xs, JsVal.arr ys => beqItems xs ys
  | JsVal.obj xs, JsVal.obj ys => beqFields xs ys
  | _, _ => false
/-- Structural equality of two arrays of values. -/
def beqItems : List JsVal → List JsVal → Bool
  | [], [] => true
  | x :: xs, y :: ys => JsVal.beq x y && beqItems xs ys
  | _, _ => false
/-- Structural equality of two property lists. -/
def beqFields : List (String × JsVal) → List (String × JsVal) → Bool
  | [], [] => true
  | (k, x) :: xs, (k', y) :: ys => k == k' && JsVal.beq x y && beqFields xs ys
  | _, _ => false
end

/-! ## The transformer -/

/-- The system clock: the `n`-th reading of `new Date().toISOString()`. -/
abbrev Clock := Nat → String

/-- The namespace key of the metadata envelope. -/
def officialKey : String := "io.modelcontextprotocol.registry/official"

/-- `convertSeedToRegistry(seedEntry)`: `packages` is split from the other
properties and put back last inside `server`; `_meta` is stamped with two
readings of the clock, `tick` being the number of readings taken so far.
Returns the registry entry and the new number of readings. -/
def convertSeedToRegistry (clock : Clock) (tick : Nat) (seedEntry : Obj) : JsVal × Nat :=
  let packages := lookupField "packages" seedEntry
  let serverWithoutPackages := seedEntry.filter (fun kv => kv.1 != "packages")
  let publishedAt := clock tick
  let updatedAt := clock (tick + 1)
  let registryEntry := JsVal.obj [
    ("server", JsVal.obj (serverWithoutPackages ++ [("packages", packages)])),
    ("_meta", JsVal.obj [
      (officialKey, JsVal.obj [
        ("status", JsVal.str "active"),
        ("publishedAt", JsVal.str publishedAt),
        ("updatedAt", JsVal.str updatedAt),
        ("isLatest", JsVal.bool true)])])]
  (registryEntry, tick + 2)

/-! ## The merge pass -/

/-- A line the loop prints for one seed entry. -/
inductive LogEvent where
  | skipped (serverName : JsVal) : LogEvent
  | added (serverName : JsVal) (version : JsVal) : LogEvent

/-- The line says that the seed entry was skipped as already registered. -/
def LogEvent.isSkipped : LogEvent → Bool
  | LogEvent.skipped _ => true
  | LogEvent.added _ _ => false

/-- The read `entry.server.name`: it throws when `entry` or `entry.server` is
`undefined` or `null`. -/
def recordName (entry : JsVal) : Except JsErr JsVal :=
  match getProp entry "server" with
  | Except.error e => Except.error e
  | Except.ok server => getProp server "name"

/-- The callback `entry => entry.server.name === serverName`. -/
def nameMatches (serverName : JsVal) (entry : JsVal) : Except JsErr Bool :=
  match recordName entry with
  | Except.error e => Except.error e
  | Except.ok name => Except.ok (strictEq name serverName)

/-- `Array.prototype.some`: the callback runs on the elements in order and the
scan stops at the first one for which it is true. -/
def arraySome (callback : JsVal → Except JsErr Bool) : List JsVal → Except JsErr Bool
  | [] => Except.ok false
  | x :: xs =>
    match callback x with
    | Except.error e => Except.error e
    | Except.ok true => Except.ok true
    | Except.ok false => arraySome callback xs

/-- The call `servers.some(callback)`: only an array has the method. -/
def callSome (servers : JsVal) (callback : JsVal → Except JsErr Bool) : Except JsErr Bool :=
  match servers with
  | JsVal.arr xs => arraySome callback xs
  | _ => Except.error JsErr.typeError

/-- The call `servers.push(entry)`: only an array has the method. -/
def callPush (servers : JsVal) (entry : JsVal) : Except JsErr JsVal :=
  match servers with
  | JsVal.arr xs => Except.ok (JsVal.arr (xs ++ [entry]))
  | _ => Except.error JsErr.typeError

/-- The variables of the loop: the array `registry.servers`, the two counters,
the number of clock readings taken and the lines printed. -/
structure LoopState where
  servers : JsVal
  addedCount : Nat
  duplicateCount : Nat
  tick : Nat
  log : List LogEvent

/-- One iteration of `for (const seedEntry of seedData)`.  Each branch prints
its line before it increments its counter: the skip line converts `serverName`
to a string, the add line converts `serverName` and `seedEntry.version`, and a
conversion that throws ends the iteration with that TypeError (in the add
branch after the push). -/
def mergeStep (clock : Clock) (st : LoopState) (seedEntry : Obj) : Except JsErr LoopState :=
  let serverName := lookupField "name" seedEntry
  match callSome st.servers (nameMatches serverName) with
  | Except.error e => Except.error e
  | Except.ok true =>
    match toStringThrows serverName with
    | true => Except.error JsErr.typeError
    | false =>
      Except.ok { st with
        duplicateCount := st.duplicateCount + 1
        log := st.log ++ [LogEvent.skipped serverName] }
  | Except.ok false =>
    let converted := convertSeedToRegistry clock st.tick seedEntry
    match callPush st.servers converted.1 with
    | Except.error e => Except.error e
    | Except.ok servers =>
      match toStringThrows serverName || toStringThrows (lookupField "version" seedEntry) with
      | true => Except.error JsErr.typeError
      | false =>
        Except.ok {
          servers := servers
          addedCount := st.addedCount + 1
          duplicateCount := st.duplicateCount
          tick := converted.2
          log := st.log ++ [LogEvent.added serverName (lookupField "version" seedEntry)] }

/-- The loop over the seed entries, in input order. -/
def mergeLoop (clock : Clock) : List Obj → LoopState → Except JsErr LoopState
  | [], st => Except.ok st
  | seedEntry :: rest, st =>
    match mergeStep clock st seedEntry with
    | Except.error e => Except.error e
    | Except.ok st' => mergeLoop clock rest st'

/-- What the `try` block has computed when it reaches `writeFileSync`. -/
structure MergeResult where
  registry : JsVal
  addedCount : Nat
  duplicateCount : Nat
  log : List LogEvent

/-- The body of the `try` block of `main` up to the write: the line that
prints `registry.servers.length` (a read and a conversion to a string), the
loop, and the assignment of `registry.metadata.count`.  The registry object is
mutated in place: the last two writes record that its `servers` and `metadata`
properties hold the grown array and the updated metadata. -/
def mergeBody (clock : Clock) (seedData : List Obj) (registry : JsVal) :
    Except JsErr MergeResult :=
  match getProp registry "servers" with
  | Except.error e => Except.error e
  | Except.ok servers0 =>
    match getProp servers0 "length" with
    | Except.error e => Except.error e
    | Except.ok length0 =>
      match toStringThrows length0 with
      | true => Except.error JsErr.typeError
      | false =>
        match mergeLoop clock seedData ⟨servers0, 0, 0, 0, []⟩ with
        | Except.error e => Except.error e
        | Except.ok st =>
          match getProp registry "metadata" with
          | Except.error e => Except.error e
          | Except.ok metadata =>
            match getProp st.servers "length" with
            | Except.error e => Except.error e
            | Except.ok len =>
              match setProp metadata "count" len with
              | Except.error e => Except.error e
              | Except.ok metadata' =>
                match setProp registry "servers" st.servers with
                | Except.error e => Except.error e
                | Except.ok registry1 =>
                  match setProp registry1 "metadata" metadata' with
                  | Except.error e => Except.error e
                  | Except.ok registry2 =>
                    Except.ok {
                      registry := registry2
                      addedCount := st.addedCount
                      duplicateCount := st.duplicateCount
                      log := st.log }

/-- The observable end of a run: the exit code and the content of the
registry file. -/
structure Outcome where
  exitCode : Nat
  registryFile : JsVal

/-- `main()` on the parsed seed and the parsed registry file.  An exception in
the `try` body before the write goes to the `catch`, which exits with code 1
with nothing written.  Otherwise the file is written once with
`JSON.stringify(registry, null, 2)` (the write itself is taken to succeed), so
it then holds `writtenValue` of the merged document; the totals are printed
after the write, and the last of them converts `registry.servers.length` to a
string once more, inside the same `try`. -/
def main (clock : Clock) (seedData : List Obj) (registryFile : JsVal) : Outcome :=
  match mergeBody clock seedData registryFile with
  | Except.error _ => { exitCode := 1, registryFile := registryFile }
  | Except.ok result =>
    match getPath result.registry ["servers", "length"] with
    | Except.error _ => { exitCode := 1, registryFile := writtenValue result.registry }
    | Except.ok total =>
      match toStringThrows total with
      | true => { exitCode := 1, registryFile := writtenValue result.registry }
      | false => { exitCode := 0, registryFile := writtenValue result.registry }

/-! ## Vocabulary of the properties -/

/-- The parsed registry value is a registry document: an object whose
`servers` is the array `xs` and whose `metadata` is the object `ms`.  Nothing
is asked of the entries of `xs` or of the value of `metadata.count`. -/
def RegistryDocument (registry : JsVal) (xs : List JsVal) (ms : Obj) : Prop :=
  ∃ fs : Obj, registry = JsVal.obj fs ∧
    lookupField "servers" fs = JsVal.arr xs ∧ lookupField "metadata" fs = JsVal.obj ms

/-- The read `registry.metadata.count`. -/
def docCount (registry : JsVal) : Except JsErr JsVal :=
  match getProp registry "metadata" with
  | Except.error e => Except.error e
  | Except.ok metadata => getProp metadata "count"

/-- Every seed entry's `name` is a primitive value: a string as in the data
model, or absent (`undefined`), `null`, a number or a boolean. -/
def SeedNamesPrimitive (seedData : List Obj) : Prop :=
  ∀ s ∈ seedData, isPrimitive (lookupField "name" s) = true

/-- Every seed entry's `name` and `version` convert to a string, so that the
line printed for the entry can be built: a string as in the data model, any
other primitive, an absent property, or an array or object whose conversion
does not throw. -/
def SeedPrintable (seedData : List Obj) : Prop :=
  ∀ s ∈ seedData, toStringThrows (lookupField "name" s) = false ∧
    toStringThrows (lookupField "version" s) = false

/-- The entry is a record whose `server.name` is the value `n`. -/
def namedBy (n : JsVal) (entry : JsVal) : Bool :=
  match recordName entry with
  | Except.ok m => JsVal.beq m n
  | Except.error _ => false

/-- The number of records of `ys` whose `server.name` is `n`. -/
def countNamed (n : JsVal) (ys : List JsVal) : Nat := ys.countP (namedBy n)

/-- The value has no own property `k` (a value that is not an object has no
own property of that name). -/
def lacksField (k : String) : JsVal → Prop
  | JsVal.obj fs => k ∉ fs.map Prod.fst
  | _ => True

/-! ## Sample inputs -/

/-- A clock whose first two readings are one millisecond apart. -/
def sampleClock : Clock := fun n =>
  if n = 0 then "2025-01-01T00:00:00.000Z" else "2025-01-01T00:00:00.001Z"

/-- A seed entry named `a` with a version and one package. -/
def seedA : Obj :=
  [("name", JsVal.str "a"), ("version", JsVal.str "1.0"),
   ("packages", JsVal.arr [JsVal.obj [("x", JsVal.num 1)]])]

/-- A seed entry named `a` with another version and no packages. -/
def seedA2 : Obj := [("name", JsVal.str "a"), ("version", JsVal.str "2.0")]

/-- A seed entry named `b`. -/
def seedB : Obj := [("name", JsVal.str "b"), ("version", JsVal.str "1.0")]

/-- A second seed entry named `b`, with other content. -/
def seedB2 : Obj := [("name", JsVal.str "b"), ("version", JsVal.str "9.9")]

/-- A stored record named `a`, version `1.0`. -/
def recordA : JsVal :=
  JsVal.obj [
    ("server", JsVal.obj [("name", JsVal.str "a"), ("version", JsVal.str "1.0")]),
    ("_meta", JsVal.obj [
      (officialKey, JsVal.obj [
        ("status", JsVal.str "active"),
        ("publishedAt", JsVal.str "2024-06-01T00:00:00.000Z"),
        ("updatedAt", JsVal.str "2024-06-01T00:00:00.000Z"),
        ("isLatest", JsVal.bool true)])])]

/-- An empty registry whose stored count is stale. -/
def emptyRegistry : JsVal :=
  JsVal.obj [("servers", JsVal.arr []), ("metadata", JsVal.obj [("count", JsVal.num 7)])]

/-- A registry holding the record named `a`, with one more top-level field. -/
def registryWithA : JsVal :=
  JsVal.obj [("version", JsVal.str "0.1"), ("servers", JsVal.arr [recordA]),
    ("metadata", JsVal.obj [("count", JsVal.num 1), ("source", JsVal.str "seed")])]

/-- A registry that already holds two records named `a`. -/
def registryTwiceA : JsVal :=
  JsVal.obj [("servers", JsVal.arr [recordA, recordA]),
    ("metadata", JsVal.obj [("count", JsVal.num 2)])]

/-- A parsed registry value with no `metadata`. -/
def registryNoMetadata : JsVal := JsVal.obj [("servers", JsVal.arr [recordA])]

/-- The servers of a successful merge, `none` when the run fails. -/
def serversAfter (clock : Clock) (seedData : List Obj) (registry : JsVal) :
    Option (List JsVal) :=
  match mergeBody clock seedData registry with
  | Except.ok r =>
    match getProp r.registry "servers" with
    | Except.ok (JsVal.arr ys) => some ys
    | _ => none
  | Except.error _ => none

/-- The registry of Scenario A: no servers, a stored count of 0. -/
def registryScenarioA : JsVal :=
  JsVal.obj [("servers", JsVal.arr []), ("metadata", JsVal.obj [("count", JsVal.num 0)])]

/-- A seed entry with neither `name` nor `packages`. -/
def seedBare : Obj := [("version", JsVal.str "0.0.1"), ("description", JsVal.str "no name")]

/-- A seed entry whose `version` is an object that does not convert to a
string. -/
def seedUnprintable : Obj :=
  [("name", JsVal.str "a"), ("version", JsVal.obj [("toString", JsVal.num 1)])]

/-- The transformation of each seed entry in input order, the first one made
when `tick` readings of the clock have been taken. -/
def convertAll (clock : Clock) : Nat → List Obj → List JsVal
  | _, [] => []
  | tick, s :: rest =>
    (convertSeedToRegistry clock tick s).1 ::
      convertAll clock (convertSeedToRegistry clock tick s).2 rest

/-! ## The merger as the spec words it -/

/-- The names of the stored records, read once before the pass (spec §4.2:
"the set of names already present in `registryDocument.servers`, computed
once"). -/
def specRegisteredNames (servers : List JsVal) : List JsVal :=
  servers.filterMap (fun e =>
    match recordName e with
    | Except.ok m => some m
    | Except.error _ => none)

/-- Look-up of a name in the name set, by value. -/
def specNameSetContains (names : List JsVal) (name : JsVal) : Bool :=
  names.any (fun m => JsVal.beq m name)

/-- The state of the spec's merger: the name set, the servers and the two
counters, with the number of clock readings taken by the transformer. -/
structure SpecMergeState where
  names : List JsVal
  servers : List JsVal
  added : Nat
  skipped : Nat
  tick : Nat

/-- The pass of the spec's merger (§4.2, steps 1 to 3): for each seed record in
input order, look its name up in the name set; if present skip it and
increment `skipped`; if absent call the transformer, append the record to
`servers`, add the name to the name set and increment `added`.  The transformer
is the one of the code. -/
def specMergeLoop (clock : Clock) : List Obj → SpecMergeState → SpecMergeState
  | [], st => st
  | seedRecord :: rest, st =>
    let name := lookupField "name" seedRecord
    if specNameSetContains st.names name then
      specMergeLoop clock rest { st with skipped := st.skipped + 1 }
    else
      let converted := convertSeedToRegistry clock st.tick seedRecord
      specMergeLoop clock rest {
        names := st.names ++ [name]
        servers := st.servers ++ [converted.1]
        added := st.added + 1
        skipped := st.skipped
        tick := converted.2 }

/-- The spec's merger on a seed list and the servers of a registry document:
the name set is computed once from the stored records, then the pass runs. -/
def specMerge (clock : Clock) (seedData : List Obj) (servers : List JsVal) : SpecMergeState :=
  specMergeLoop clock seedData ⟨specRegisteredNames servers, servers, 0, 0, 0⟩

/-! ## Structural equality is equality -/

mutual
theorem JsVal.beq_sound : ∀ (a b : JsVal), JsVal.beq a b = true → a = b
  | JsVal.undefined, b => by cases b <;> simp [JsVal.beq]
  | JsVal.null, b => by cases b <;> simp [JsVal.beq]
  | JsVal.bool x, b => by cases b <;> simp [JsVal.beq]
  | JsVal.num x, b => by cases b <;> simp [JsVal.beq]
  | JsVal.str x, b => by cases b <;> simp [JsVal.beq]
  | JsVal.arr xs, b => by
    cases b <;> simp [JsVal.beq]
    exact beqItems_sound xs _
  | JsVal.obj xs, b => by
    cases b <;> simp [JsVal.beq]
    exact beqFields_sound xs _
theorem beqItems_sound : ∀ (xs ys : List JsVal), beqItems xs ys = true → xs = ys
  | [], ys => by cases ys <;> simp [beqItems]
  | x :: xs, ys => by
    cases ys with
    | nil => simp [beqItems]
    | cons y ys =>
      simp [beqItems]
      intro h1 h2
      exact ⟨JsVal.beq_sound x y h1, beqItems_sound xs ys h2⟩
theorem beqFields_sound : ∀ (xs ys : List (String × JsVal)), beqFields xs ys = true → xs = ys
  | [], ys => by cases ys <;> simp [beqFields]
  | (k, x) :: xs, ys => by
    cases ys with
    | nil => simp [beqFields]
    | cons y ys =>
      obtain ⟨k', y⟩ := y
      simp [beqFields]
      intro h1 h2 h3
      exact ⟨⟨h1, JsVal.beq_sound x y h2⟩, beqFields_sound xs ys h3⟩
end

mutual
theorem JsVal.beq_self : ∀ (a : JsVal), JsVal.beq a a = true
  | JsVal.undefined => by simp [JsVal.beq]
  | JsVal.null => by simp [JsVal.beq]
  | JsVal.bool x => by simp [JsVal.beq]
  | JsVal.num x => by simp [JsVal.beq]
  | JsVal.str x => by simp [JsVal.beq]
  | JsVal.arr xs => by simp [JsVal.beq]; exact beqItems_self xs
  | JsVal.obj xs => by simp [JsVal.beq]; exact beqFields_self xs
theorem beqItems_self : ∀ (xs : List JsVal), beqItems xs xs = true
  | [] => by simp [beqItems]
  | x :: xs => by simp [beqItems]; exact ⟨JsVal.beq_self x, beqItems_self xs⟩
theorem beqFields_self : ∀ (xs : List (String × JsVal)), beqFields xs xs = true
  | [] => by simp [beqFields]
  | (k, x) :: xs => by simp [beqFields]; exact ⟨JsVal.beq_self x, beqFields_self xs⟩
end

theorem JsVal.beq_iff (a b : JsVal) : JsVal.beq a b = true ↔ a = b :=
  ⟨JsVal.beq_sound a b, fun h => h ▸ JsVal.beq_self a⟩

instance instDecidableEqJsVal : DecidableEq JsVal := fun a b =>
  decidable_of_iff (JsVal.beq a b = true) (JsVal.beq_iff a b)

deriving instance DecidableEq for Except
deriving instance DecidableEq for LogEvent
deriving instance DecidableEq for LoopState
deriving instance DecidableEq for MergeResult
deriving instance DecidableEq for Outcome

/-! ## Properties and objects -/

theorem lookupField_setField_self (k : String) (v : JsVal) (fs : Obj) :
    lookupField k (setField k v fs) = v := by
  induction fs with
  | nil => simp [setField, lookupField]
  | cons kv rest ih =>
    obtain ⟨k', v'⟩ := kv
    by_cases h : k' = k
    · simp [setField, lookupField, h]
    · simp [setField, lookupField, h, ih]

theorem lookupField_setField_ne (k k' : String) (v : JsVal) (fs : Obj) (hne : k' ≠ k) :
    lookupField k' (setField k v fs) = lookupField k' fs := by
  induction fs with
  | nil => simp [setField, lookupField, Ne.symm hne]
  | cons kv rest ih =>
    obtain ⟨k0, v0⟩ := kv
    by_cases h : k0 = k
    · subst h
      simp [setField, lookupField, Ne.symm hne]
    · by_cases h2 : k0 = k'
      · subst h2
        simp [setField, lookupField, h]
      · simp [setField, lookupField, h, h2, ih]

theorem mem_keys_of_lookupField_ne (k : String) (fs : Obj)
    (h : lookupField k fs ≠ JsVal.undefined) : k ∈ fs.map Prod.fst := by
  induction fs with
  | nil => simp [lookupField] at h
  | cons kv rest ih =>
    obtain ⟨k0, v0⟩ := kv
    by_cases h0 : k0 = k
    · simp [h0]
    · simp only [lookupField, h0, if_false] at h
      simp [ih h]

theorem setField_keys (k : String) (v : JsVal) (fs : Obj) (hk : k ∈ fs.map Prod.fst) :
    (setField k v fs).map Prod.fst = fs.map Prod.fst := by
  induction fs with
  | nil => simp at hk
  | cons kv rest ih =>
    obtain ⟨k0, v0⟩ := kv
    by_cases h0 : k0 = k
    · simp [setField, h0]
    · have hk' : k ∈ rest.map Prod.fst := by
        simp only [List.map_cons, List.mem_cons] at hk
        rcases hk with hk | hk
        · exact absurd hk.symm h0
        · exact hk
      simp [setField, h0, ih hk']

theorem setField_lookupField_self (k : String) (fs : Obj) (hk : k ∈ fs.map Prod.fst) :
    setField k (lookupField k fs) fs = fs := by
  induction fs with
  | nil => simp at hk
  | cons kv rest ih =>
    obtain ⟨k0, v0⟩ := kv
    by_cases h0 : k0 = k
    · simp [setField, lookupField, h0]
    · have hk' : k ∈ rest.map Prod.fst := by
        simp only [List.map_cons, List.mem_cons] at hk
        rcases hk with hk | hk
        · exact absurd hk.symm h0
        · exact hk
      simp [setField, lookupField, h0, ih hk']

theorem setField_setField_self (k : String) (v w : JsVal) (fs : Obj) :
    setField k w (setField k v fs) = setField k w fs := by
  induction fs with
  | nil => simp [setField]
  | cons kv rest ih =>
    obtain ⟨k0, v0⟩ := kv
    by_cases h0 : k0 = k
    · simp [setField, h0]
    · simp [setField, h0, ih]

theorem lookupField_append (k : String) (fs gs : Obj) :
    lookupField k (fs ++ gs) =
      if k ∈ fs.map Prod.fst then lookupField k fs else lookupField k gs := by
  induction fs with
  | nil => simp [lookupField]
  | cons kv rest ih =>
    obtain ⟨k0, v0⟩ := kv
    by_cases h0 : k0 = k
    · simp [lookupField, h0]
    · have h1 : ¬ k = k0 := fun e => h0 e.symm
      have hstep : lookupField k ((k0, v0) :: rest ++ gs) = lookupField k (rest ++ gs) := by
        simp [lookupField, h0]
      have hstep2 : lookupField k ((k0, v0) :: rest) = lookupField k rest := by
        simp [lookupField, h0]
      rw [hstep, hstep2, ih, List.map_cons]
      by_cases hm : k ∈ List.map Prod.fst rest
      · rw [if_pos hm, if_pos (List.mem_cons_of_mem _ hm)]
      · have hm' : ¬ k ∈ k0 :: List.map Prod.fst rest := by
          intro hmem
          rcases List.mem_cons.mp hmem with e | e
          · exact h1 e
          · exact hm e
        rw [if_neg hm, if_neg hm']

theorem lookupField_filter_ne (k p : String) (fs : Obj) (hne : k ≠ p) :
    lookupField k (fs.filter (fun kv => kv.1 != p)) = lookupField k fs := by
  induction fs with
  | nil => simp [lookupField]
  | cons kv rest ih =>
    obtain ⟨k0, v0⟩ := kv
    by_cases h0 : k0 = p
    · have h1 : ¬ k0 = k := fun e => hne (e ▸ h0)
      have hb : (k0 != p) = false := by simp [h0]
      simp only [List.filter_cons, hb, lookupField, h1, if_false]
      simpa using ih
    · have hb : (k0 != p) = true := by simp [h0]
      by_cases h2 : k0 = k
      · subst h2
        simp [List.filter_cons, lookupField, hne]
      · simp only [List.filter_cons, hb, lookupField, h2, if_false, if_true]
        exact ih

theorem keys_filter_ne (k p : String) (fs : Obj) (hne : k ≠ p) :
    k ∈ (fs.filter (fun kv => kv.1 != p)).map Prod.fst ↔ k ∈ fs.map Prod.fst := by
  simp only [List.mem_map, List.mem_filter]
  constructor
  · rintro ⟨kv, ⟨hmem, _⟩, rfl⟩
    exact ⟨kv, hmem, rfl⟩
  · rintro ⟨kv, hmem, rfl⟩
    exact ⟨kv, ⟨hmem, by simpa using hne⟩, rfl⟩

/-! ## Strict equality -/

theorem strictEq_eq (a b : JsVal) (h : strictEq a b = true) : a = b := by
  cases a <;> cases b <;> simp_all [strictEq]

theorem strictEq_self (a : JsVal) (h : isPrimitive a = true) : strictEq a a = true := by
  cases a <;> simp_all [strictEq, isPrimitive]

theorem strictEq_primitive (a b : JsVal) (h : strictEq a b = true) : isPrimitive b = true := by
  cases a <;> cases b <;> simp_all [strictEq, isPrimitive]

theorem toStringThrows_of_primitive (a : JsVal) (h : isPrimitive a = true) :
    toStringThrows a = false := by
  cases a <;> simp_all [toStringThrows, isPrimitive]

/-! ## The scan of `servers` -/

theorem arraySome_append (cb : JsVal → Except JsErr Bool) (xs ys : List JsVal) :
    arraySome cb (xs ++ ys) =
      match arraySome cb xs with
      | Except.error e => Except.error e
      | Except.ok true => Except.ok true
      | Except.ok false => arraySome cb ys := by
  induction xs with
  | nil => simp [arraySome]
  | cons x xs ih =>
    simp only [List.cons_append, arraySome]
    cases hx : cb x with
    | error e => simp
    | ok b => cases b <;> simp [ih]

theorem arraySome_false (cb : JsVal → Except JsErr Bool) (xs : List JsVal)
    (h : arraySome cb xs = Except.ok false) : ∀ e ∈ xs, cb e = Except.ok false := by
  induction xs with
  | nil => simp
  | cons x xs ih =>
    simp only [arraySome] at h
    cases hx : cb x with
    | error e => simp [hx] at h
    | ok b =>
      cases b with
      | true => simp [hx] at h
      | false =>
        simp only [hx] at h
        intro e he
        rcases List.mem_cons.mp he with rfl | he
        · exact hx
        · exact ih h e he

theorem arraySome_true (cb : JsVal → Except JsErr Bool) (xs : List JsVal)
    (h : arraySome cb xs = Except.ok true) : ∃ e ∈ xs, cb e = Except.ok true := by
  induction xs with
  | nil => simp [arraySome] at h
  | cons x xs ih =>
    simp only [arraySome] at h
    cases hx : cb x with
    | error e => simp [hx] at h
    | ok b =>
      cases b with
      | true => exact ⟨x, List.mem_cons_self _ _, hx⟩
      | false =>
        simp only [hx] at h
        obtain ⟨e, he, hc⟩ := ih h
        exact ⟨e, List.mem_cons_of_mem _ he, hc⟩

theorem arraySome_of_all_false (cb : JsVal → Except JsErr Bool) (xs : List JsVal)
    (h : ∀ e ∈ xs, cb e = Except.ok false) : arraySome cb xs = Except.ok false := by
  induction xs with
  | nil => rfl
  | cons x xs ih =>
    have hx := h x (List.mem_cons_self _ _)
    simp only [arraySome, hx]
    exact ih (fun e he => h e (List.mem_cons_of_mem _ he))

theorem nameMatches_ok (n e : JsVal) (b : Bool) (h : nameMatches n e = Except.ok b) :
    ∃ m, recordName e = Except.ok m ∧ strictEq m n = b := by
  unfold nameMatches at h
  cases hr : recordName e with
  | error err => simp [hr] at h
  | ok m =>
    simp only [hr, Except.ok.injEq] at h
    exact ⟨m, rfl, h⟩

theorem nameMatches_of_recordName (n e m : JsVal) (h : recordName e = Except.ok m) :
    nameMatches n e = Except.ok (strictEq m n) := by
  simp [nameMatches, h]

theorem recordName_convert (clock : Clock) (tick : Nat) (s : Obj) :
    recordName (convertSeedToRegistry clock tick s).1 = Except.ok (lookupField "name" s) := by
  have hne : ("name" : String) ≠ "packages" := by decide
  have h1 := lookupField_filter_ne "name" "packages" s hne
  have h2 := lookupField_append "name" (s.filter (fun kv => kv.1 != "packages"))
    [("packages", lookupField "packages" s)]
  simp only [recordName, convertSeedToRegistry, getProp, lookupField, if_true]
  rw [h2]
  by_cases hm : "name" ∈ (s.filter (fun kv => kv.1 != "packages")).map Prod.fst
  · rw [if_pos hm, h1]
  · rw [if_neg hm]
    have hm' : "name" ∉ s.map Prod.fst := fun hk => hm ((keys_filter_ne "name" "packages" s hne).mpr hk)
    have hu : lookupField "name" s = JsVal.undefined := by
      by_contra hc
      exact hm' (mem_keys_of_lookupField_ne "name" s hc)
    rw [hu]
    simp [lookupField]

/-! ## The loop -/

theorem scan_true_primitive (n : JsVal) (xs : List JsVal)
    (h : arraySome (nameMatches n) xs = Except.ok true) : isPrimitive n = true := by
  obtain ⟨e, _, hc⟩ := arraySome_true _ _ h
  obtain ⟨m, _, hst⟩ := nameMatches_ok n e true hc
  exact strictEq_primitive m n hst

theorem mergeStep_ok (clock : Clock) (st st1 : LoopState) (s : Obj) (xs : List JsVal)
    (hs : st.servers = JsVal.arr xs) (h : mergeStep clock st s = Except.ok st1) :
    (arraySome (nameMatches (lookupField "name" s)) xs = Except.ok true ∧
      st1 = { st with
        duplicateCount := st.duplicateCount + 1
        log := st.log ++ [LogEvent.skipped (lookupField "name" s)] }) ∨
    (arraySome (nameMatches (lookupField "name" s)) xs = Except.ok false ∧
      st1 = {
        servers := JsVal.arr (xs ++ [(convertSeedToRegistry clock st.tick s).1])
        addedCount := st.addedCount + 1
        duplicateCount := st.duplicateCount
        tick := st.tick + 2
        log := st.log ++ [LogEvent.added (lookupField "name" s) (lookupField "version" s)] }) := by
  unfold mergeStep at h
  simp only [hs, callSome, callPush] at h
  cases hsome : arraySome (nameMatches (lookupField "name" s)) xs with
  | error e => simp [hsome] at h
  | ok b =>
    cases b with
    | true =>
      simp only [hsome] at h
      cases hp : toStringThrows (lookupField "name" s) with
      | true => simp [hp] at h
      | false =>
        simp only [hp, Except.ok.injEq] at h
        exact Or.inl ⟨rfl, by rw [← h, hs]⟩
    | false =>
      simp only [hsome] at h
      cases hp : (toStringThrows (lookupField "name" s) ||
          toStringThrows (lookupField "version" s)) with
      | true => simp [hp] at h
      | false =>
        simp only [hp, Except.ok.injEq] at h
        exact Or.inr ⟨rfl, by rw [← h]; rfl⟩

theorem mergeStep_skip (clock : Clock) (st : LoopState) (s : Obj) (xs : List JsVal)
    (hs : st.servers = JsVal.arr xs)
    (h : arraySome (nameMatches (lookupField "name" s)) xs = Except.ok true) :
    mergeStep clock st s = Except.ok { st with
        duplicateCount := st.duplicateCount + 1
        log := st.log ++ [LogEvent.skipped (lookupField "name" s)] } := by
  have hp := toStringThrows_of_primitive _ (scan_true_primitive _ xs h)
  unfold mergeStep
  simp only [hs, callSome, h, hp]

theorem mergeStep_add (clock : Clock) (st : LoopState) (s : Obj) (xs : List JsVal)
    (hs : st.servers = JsVal.arr xs)
    (h : arraySome (nameMatches (lookupField "name" s)) xs = Except.ok false)
    (hn : toStringThrows (lookupField "name" s) = false)
    (hv : toStringThrows (lookupField "version" s) = false) :
    mergeStep clock st s = Except.ok {
        servers := JsVal.arr (xs ++ [(convertSeedToRegistry clock st.tick s).1])
        addedCount := st.addedCount + 1
        duplicateCount := st.duplicateCount
        tick := st.tick + 2
        log := st.log ++ [LogEvent.added (lookupField "name" s) (lookupField "version" s)] } := by
  unfold mergeStep
  simp only [hs, callSome, h, callPush, hn, hv, Bool.or_self]
  rfl

/-- The add line throws when the name or the version does not convert to a
string: the iteration ends with a TypeError. -/
theorem mergeStep_add_throws (clock : Clock) (st : LoopState) (s : Obj) (xs : List JsVal)
    (hs : st.servers = JsVal.arr xs)
    (h : arraySome (nameMatches (lookupField "name" s)) xs = Except.ok false)
    (hp : (toStringThrows (lookupField "name" s) ||
      toStringThrows (lookupField "version" s)) = true) :
    mergeStep clock st s = Except.error JsErr.typeError := by
  unfold mergeStep
  simp only [hs, callSome, h, callPush, hp]

theorem mergeLoop_cons_ok (clock : Clock) (s : Obj) (rest : List Obj) (st st' : LoopState)
    (h : mergeLoop clock (s :: rest) st = Except.ok st') :
    ∃ st1, mergeStep clock st s = Except.ok st1 ∧ mergeLoop clock rest st1 = Except.ok st' := by
  simp only [mergeLoop] at h
  cases hstep : mergeStep clock st s with
  | error e => simp [hstep] at h
  | ok st1 =>
    simp only [hstep] at h
    exact ⟨st1, rfl, h⟩

/-- The loop only appends to `servers`, one record per addition, and the
counters and the log account for every seed entry. -/
theorem mergeLoop_shape (clock : Clock) (seeds : List Obj) :
    ∀ (st st' : LoopState) (xs : List JsVal), st.servers = JsVal.arr xs →
      mergeLoop clock seeds st = Except.ok st' →
      ∃ new events, st'.servers = JsVal.arr (xs ++ new) ∧
        st'.addedCount = st.addedCount + new.length ∧
        st'.duplicateCount + new.length = st.duplicateCount + seeds.length ∧
        st'.tick = st.tick + 2 * new.length ∧
        st'.log = st.log ++ events ∧ events.length = seeds.length := by
  induction seeds with
  | nil =>
    intro st st' xs hs h
    simp only [mergeLoop, Except.ok.injEq] at h
    subst h
    exact ⟨[], [], by simp [hs], by simp, by simp, by simp, by simp, by simp⟩
  | cons s rest ih =>
    intro st st' xs hs h
    obtain ⟨st1, hstep, hrest⟩ := mergeLoop_cons_ok clock s rest st st' h
    rcases mergeStep_ok clock st st1 s xs hs hstep with ⟨_, h1⟩ | ⟨_, h1⟩
    · have hs1 : st1.servers = JsVal.arr xs := by rw [h1]; exact hs
      obtain ⟨new, events, e1, e2, e3, e4, e5, e6⟩ := ih st1 st' xs hs1 hrest
      refine ⟨new, LogEvent.skipped (lookupField "name" s) :: events, e1, ?_, ?_, ?_, ?_, ?_⟩
      · rw [e2, h1]
      · rw [e3, h1]; simp only [List.length_cons]; omega
      · rw [e4, h1]
      · rw [e5, h1]; simp
      · simp [e6]
    · have hs1 : st1.servers =
          JsVal.arr (xs ++ [(convertSeedToRegistry clock st.tick s).1]) := by rw [h1]
      obtain ⟨new, events, e1, e2, e3, e4, e5, e6⟩ := ih st1 st' _ hs1 hrest
      refine ⟨(convertSeedToRegistry clock st.tick s).1 :: new,
        LogEvent.added (lookupField "name" s) (lookupField "version" s) :: events,
        ?_, ?_, ?_, ?_, ?_, ?_⟩
      · rw [e1]; simp
      · rw [e2, h1]; simp only [List.length_cons]; omega
      · rw [h1] at e3; simp only [List.length_cons] at e3 ⊢; omega
      · rw [e4, h1]; simp only [List.length_cons]; omega
      · rw [e5, h1]; simp
      · simp [e6]

/-! ## The body of `main` -/

theorem mergeBody_of_loop (clock : Clock) (seedData : List Obj) (fs ms : Obj)
    (xs ys : List JsVal) (st : LoopState)
    (hs : lookupField "servers" fs = JsVal.arr xs)
    (hm : lookupField "metadata" fs = JsVal.obj ms)
    (hloop : mergeLoop clock seedData ⟨JsVal.arr xs, 0, 0, 0, []⟩ = Except.ok st)
    (hys : st.servers = JsVal.arr ys) :
    mergeBody clock seedData (JsVal.obj fs) = Except.ok {
      registry := JsVal.obj (setField "metadata"
        (JsVal.obj (setField "count" (JsVal.num ys.length) ms))
        (setField "servers" (JsVal.arr ys) fs))
      addedCount := st.addedCount
      duplicateCount := st.duplicateCount
      log := st.log } := by
  simp [mergeBody, getProp, setProp, toStringThrows, hs, hm, hloop, hys]

theorem mergeBody_ok (clock : Clock) (seedData : List Obj) (registry : JsVal)
    (xs : List JsVal) (ms : Obj) (r : MergeResult)
    (hdoc : RegistryDocument registry xs ms)
    (hrun : mergeBody clock seedData registry = Except.ok r) :
    ∃ fs st new, registry = JsVal.obj fs ∧
      lookupField "servers" fs = JsVal.arr xs ∧ lookupField "metadata" fs = JsVal.obj ms ∧
      mergeLoop clock seedData ⟨JsVal.arr xs, 0, 0, 0, []⟩ = Except.ok st ∧
      st.servers = JsVal.arr (xs ++ new) ∧
      r = {
        registry := JsVal.obj (setField "metadata"
          (JsVal.obj (setField "count" (JsVal.num (xs ++ new).length) ms))
          (setField "servers" (JsVal.arr (xs ++ new)) fs))
        addedCount := st.addedCount
        duplicateCount := st.duplicateCount
        log := st.log } := by
  obtain ⟨fs, rfl, hs, hm⟩ := hdoc
  cases hloop : mergeLoop clock seedData ⟨JsVal.arr xs, 0, 0, 0, []⟩ with
  | error e => simp [mergeBody, getProp, toStringThrows, hs, hloop] at hrun
  | ok st =>
    obtain ⟨new, _, hnew, _⟩ := mergeLoop_shape clock seedData _ st xs rfl hloop
    have h := mergeBody_of_loop clock seedData fs ms xs (xs ++ new) st hs hm hloop hnew
    rw [h] at hrun
    exact ⟨fs, st, new, rfl, hs, hm, rfl, hnew, (Except.ok.inj hrun).symm⟩

theorem mem_keys_setField (k k' : String) (v : JsVal) (fs : Obj) :
    k' ∈ (setField k v fs).map Prod.fst ↔ k' = k ∨ k' ∈ fs.map Prod.fst := by
  induction fs with
  | nil => simp [setField]
  | cons kv rest ih =>
    obtain ⟨k0, v0⟩ := kv
    by_cases h0 : k0 = k
    · subst h0
      simp [setField]
    · simp only [setField, h0, if_false, List.map_cons, List.mem_cons, ih]
      tauto

theorem lookupField_of_not_mem (k : String) (fs : Obj) (h : k ∉ fs.map Prod.fst) :
    lookupField k fs = JsVal.undefined := by
  by_contra hc
  exact h (mem_keys_of_lookupField_ne k fs hc)

/-! ## The merge pass: count, frame and failure -/

/-- C1 (count invariant): for every seed list and every registry document,
whatever `metadata.count` held before, after a successful merge pass
`registry.metadata.count` is the length of `registry.servers`. -/
theorem count_invariant (clock : Clock) (seedData : List Obj) (registry : JsVal)
    (xs : List JsVal) (ms : Obj) (r : MergeResult)
    (hdoc : RegistryDocument registry xs ms)
    (hrun : mergeBody clock seedData registry = Except.ok r) :
    ∃ ys, getProp r.registry "servers" = Except.ok (JsVal.arr ys) ∧
      docCount r.registry = Except.ok (JsVal.num ys.length) := by
  obtain ⟨fs, st, new, _, _, _, _, _, hr⟩ := mergeBody_ok clock seedData registry xs ms r hdoc hrun
  refine ⟨xs ++ new, ?_, ?_⟩
  · rw [hr]
    simp only [getProp]
    rw [lookupField_setField_ne "metadata" "servers" _ _ (by decide),
      lookupField_setField_self]
  · rw [hr]
    simp only [docCount, getProp]
    rw [lookupField_setField_self]
    simp only [getProp]
    rw [lookupField_setField_self]

/-- Witness of C1: Scenario A on a registry whose stored count was stale. -/
theorem count_invariant_witness :
    RegistryDocument emptyRegistry [] [("count", JsVal.num 7)] ∧
    (∃ r, mergeBody sampleClock [seedA] emptyRegistry = Except.ok r ∧
      ∃ ys, getProp r.registry "servers" = Except.ok (JsVal.arr ys) ∧
        docCount r.registry = Except.ok (JsVal.num ys.length)) :=
  have hdoc : RegistryDocument emptyRegistry [] [("count", JsVal.num 7)] := ⟨_, rfl, rfl, rfl⟩
  ⟨hdoc, _, rfl, count_invariant sampleClock [seedA] emptyRegistry [] _ _ hdoc rfl⟩

/-- C9 (existing content is left untouched): after a successful merge pass
the input `servers` is an initial segment of the resulting `servers`, the
document has the same properties in the same order, every property other than
`servers` and `metadata` has its value unchanged, and every property of
`metadata` other than `count` is unchanged. -/
theorem existing_content_untouched (clock : Clock) (seedData : List Obj) (registry : JsVal)
    (xs : List JsVal) (ms : Obj) (r : MergeResult)
    (hdoc : RegistryDocument registry xs ms)
    (hrun : mergeBody clock seedData registry = Except.ok r) :
    ∃ fs fs' new ms', registry = JsVal.obj fs ∧ r.registry = JsVal.obj fs' ∧
      lookupField "servers" fs' = JsVal.arr (xs ++ new) ∧
      lookupField "metadata" fs' = JsVal.obj ms' ∧
      fs'.map Prod.fst = fs.map Prod.fst ∧
      (∀ k, k ≠ "servers" → k ≠ "metadata" → lookupField k fs' = lookupField k fs) ∧
      (∀ k, k ≠ "count" → lookupField k ms' = lookupField k ms) ∧
      (∀ k, k ≠ "count" → (k ∈ ms'.map Prod.fst ↔ k ∈ ms.map Prod.fst)) := by
  obtain ⟨fs, st, new, hreg, hs, hm, _, _, hr⟩ :=
    mergeBody_ok clock seedData registry xs ms r hdoc hrun
  have hks : "servers" ∈ fs.map Prod.fst :=
    mem_keys_of_lookupField_ne "servers" fs (by rw [hs]; exact fun h => by cases h)
  have hkm : "metadata" ∈ fs.map Prod.fst :=
    mem_keys_of_lookupField_ne "metadata" fs (by rw [hm]; exact fun h => by cases h)
  refine ⟨fs, setField "metadata" (JsVal.obj (setField "count" (JsVal.num (xs ++ new).length) ms))
      (setField "servers" (JsVal.arr (xs ++ new)) fs), new,
    setField "count" (JsVal.num (xs ++ new).length) ms, hreg, ?_, ?_, ?_, ?_, ?_, ?_, ?_⟩
  · rw [hr]
  · rw [lookupField_setField_ne "metadata" "servers" _ _ (by decide), lookupField_setField_self]
  · rw [lookupField_setField_self]
  · rw [setField_keys, setField_keys _ _ _ hks]
    rw [setField_keys _ _ _ hks]
    exact hkm
  · intro k h1 h2
    rw [lookupField_setField_ne _ _ _ _ h2, lookupField_setField_ne _ _ _ _ h1]
  · intro k h1
    rw [lookupField_setField_ne _ _ _ _ h1]
  · intro k h1
    rw [mem_keys_setField]
    constructor
    · rintro (h | h)
      · exact absurd h h1
      · exact h
    · exact Or.inr

/-- Witness of C9: Scenario B, the seed entry `a` version `2.0` against a
registry that holds `a` version `1.0`. -/
theorem existing_content_untouched_witness :
    RegistryDocument registryWithA [recordA]
      [("count", JsVal.num 1), ("source", JsVal.str "seed")] ∧
    (∃ r, mergeBody sampleClock [seedA2] registryWithA = Except.ok r ∧
      r.addedCount = 0 ∧ r.duplicateCount = 1 ∧
      ∃ fs fs' new ms', registryWithA = JsVal.obj fs ∧ r.registry = JsVal.obj fs' ∧
        lookupField "servers" fs' = JsVal.arr ([recordA] ++ new) ∧
        lookupField "metadata" fs' = JsVal.obj ms' ∧
        fs'.map Prod.fst = fs.map Prod.fst ∧
        (∀ k, k ≠ "servers" → k ≠ "metadata" → lookupField k fs' = lookupField k fs) ∧
        (∀ k, k ≠ "count" →
          lookupField k ms' = lookupField k [("count", JsVal.num 1), ("source", JsVal.str "seed")]) ∧
        (∀ k, k ≠ "count" → (k ∈ ms'.map Prod.fst ↔
          k ∈ List.map Prod.fst [("count", JsVal.num 1), ("source", JsVal.str "seed")]))) :=
  have hdoc : RegistryDocument registryWithA [recordA]
      [("count", JsVal.num 1), ("source", JsVal.str "seed")] := ⟨_, rfl, rfl, rfl⟩
  ⟨hdoc, _, rfl, rfl, rfl,
    existing_content_untouched sampleClock [seedA2] registryWithA [recordA] _ _ hdoc rfl⟩

/-- On a registry document a successful `try` body is followed by the write
and by exit code 0: the file holds the merged document as `JSON.stringify`
writes it. -/
theorem main_of_ok (clock : Clock) (seedData : List Obj) (registry : JsVal)
    (xs : List JsVal) (ms : Obj) (r : MergeResult)
    (hdoc : RegistryDocument registry xs ms)
    (hrun : mergeBody clock seedData registry = Except.ok r) :
    main clock seedData registry = { exitCode := 0, registryFile := writtenValue r.registry } := by
  obtain ⟨fs, st, new, _, _, _, _, _, hr⟩ := mergeBody_ok clock seedData registry xs ms r hdoc hrun
  have hlen : getPath r.registry ["servers", "length"] =
      Except.ok (JsVal.num ((xs ++ new).length : Int)) := by
    rw [hr]
    simp only [getPath, getProp]
    rw [lookupField_setField_ne "metadata" "servers" _ _ (by decide), lookupField_setField_self]
    simp [getProp]
  simp only [main, hrun, hlen, toStringThrows]

/-- The written file of a seed entry without `packages`: the property
`server.packages`, `undefined` in memory, is not in the file. -/
theorem written_file_leaves_out_undefined :
    main sampleClock [seedB] registryScenarioA = {
      exitCode := 0
      registryFile := JsVal.obj [
        ("servers", JsVal.arr [JsVal.obj [
          ("server", JsVal.obj [("name", JsVal.str "b"), ("version", JsVal.str "1.0")]),
          ("_meta", JsVal.obj [
            (officialKey, JsVal.obj [
              ("status", JsVal.str "active"),
              ("publishedAt", JsVal.str "2025-01-01T00:00:00.000Z"),
              ("updatedAt", JsVal.str "2025-01-01T00:00:00.001Z"),
              ("isLatest", JsVal.bool true)])])]]),
        ("metadata", JsVal.obj [("count", JsVal.num 1)])] } := by
  decide

/-- C10 (failure atomicity for shape errors): for every seed list and every
parsed registry value that lacks `servers` or lacks `metadata`, the body of
`main` throws, the run exits with code 1 and the registry file holds what it
held before the run. -/
theorem shape_error_leaves_file (clock : Clock) (seedData : List Obj) (registryFile : JsVal)
    (h : lacksField "servers" registryFile ∨ lacksField "metadata" registryFile) :
    mergeBody clock seedData registryFile = Except.error JsErr.typeError ∧
    (main clock seedData registryFile).exitCode = 1 ∧
    (main clock seedData registryFile).registryFile = registryFile := by
  have herr : mergeBody clock seedData registryFile = Except.error JsErr.typeError := by
    cases hb : mergeBody clock seedData registryFile with
    | error e => cases e; rfl
    | ok r =>
      exfalso
      unfold mergeBody at hb
      cases h1 : getProp registryFile "servers" with
      | error e => simp [h1] at hb
      | ok servers0 =>
        simp only [h1] at hb
        cases h2 : getProp servers0 "length" with
        | error e => simp [h2] at hb
        | ok len0 =>
          simp only [h2] at hb
          cases h2b : toStringThrows len0 with
          | true => simp [h2b] at hb
          | false =>
          simp only [h2b] at hb
          cases h3 : mergeLoop clock seedData ⟨servers0, 0, 0, 0, []⟩ with
          | error e => simp [h3] at hb
          | ok st =>
            simp only [h3] at hb
            cases h4 : getProp registryFile "metadata" with
            | error e => simp [h4] at hb
            | ok metadata =>
              simp only [h4] at hb
              cases h5 : getProp st.servers "length" with
              | error e => simp [h5] at hb
              | ok len =>
                simp only [h5] at hb
                cases h6 : setProp metadata "count" len with
                | error e => simp [h6] at hb
                | ok metadata' =>
                  rcases h with h | h
                  · have hu : servers0 = JsVal.undefined := by
                      cases registryFile with
                      | obj fs =>
                        simp only [getProp, Except.ok.injEq] at h1
                        rw [← h1]
                        exact lookupField_of_not_mem _ _ h
                      | undefined => simp [getProp] at h1
                      | null => simp [getProp] at h1
                      | bool b => simp [getProp] at h1; exact h1.symm
                      | num n => simp [getProp] at h1; exact h1.symm
                      | str s => simp [getProp] at h1; exact h1.symm
                      | arr items => simp [getProp] at h1; exact h1.symm
                    rw [hu] at h2
                    simp [getProp] at h2
                  · have hu : metadata = JsVal.undefined := by
                      cases registryFile with
                      | obj fs =>
                        simp only [getProp, Except.ok.injEq] at h4
                        rw [← h4]
                        exact lookupField_of_not_mem _ _ h
                      | undefined => simp [getProp] at h4
                      | null => simp [getProp] at h4
                      | bool b => simp [getProp] at h4; exact h4.symm
                      | num n => simp [getProp] at h4; exact h4.symm
                      | str s => simp [getProp] at h4; exact h4.symm
                      | arr items => simp [getProp] at h4; exact h4.symm
                    rw [hu] at h6
                    simp [setProp] at h6
  refine ⟨herr, ?_, ?_⟩ <;> simp [main, herr]

/-- Witness of C10: a registry file without `metadata`. -/
theorem shape_error_leaves_file_witness :
    (lacksField "servers" registryNoMetadata ∨ lacksField "metadata" registryNoMetadata) ∧
    mergeBody sampleClock [seedB] registryNoMetadata = Except.error JsErr.typeError ∧
    (main sampleClock [seedB] registryNoMetadata).exitCode = 1 ∧
    (main sampleClock [seedB] registryNoMetadata).registryFile = registryNoMetadata :=
  have h : lacksField "servers" registryNoMetadata ∨ lacksField "metadata" registryNoMetadata :=
    Or.inr (show ("metadata" : String) ∉ List.map Prod.fst [("servers", JsVal.arr [recordA])] by
      decide)
  ⟨h, shape_error_leaves_file sampleClock [seedB] registryNoMetadata h⟩

/-! ## The transformer -/

theorem count_keys_filter_self (p : String) (fs : Obj) :
    ((fs.filter (fun kv => kv.1 != p)).map Prod.fst).count p = 0 := by
  rw [List.count_eq_zero]
  intro hmem
  obtain ⟨kv, hkv, hk⟩ := List.mem_map.mp hmem
  have h2 := (List.mem_filter.mp hkv).2
  simp [hk] at h2

/-- C6 (field preservation): the record made from a seed entry has exactly the
two properties `server` and `_meta`; every property of the seed entry other
than `packages` is a property of `server` with the same value, `server` has no
property that is neither `packages` nor one of the seed entry, and
`server.packages` is the seed entry's `packages`, held once. -/
theorem field_preservation (clock : Clock) (tick : Nat) (seedEntry : Obj) :
    ∃ server envelope,
      (convertSeedToRegistry clock tick seedEntry).1 =
        JsVal.obj [("server", JsVal.obj server), ("_meta", envelope)] ∧
      (∀ k, k ≠ "packages" → lookupField k server = lookupField k seedEntry) ∧
      (∀ k, k ≠ "packages" → (k ∈ server.map Prod.fst ↔ k ∈ seedEntry.map Prod.fst)) ∧
      lookupField "packages" server = lookupField "packages" seedEntry ∧
      (server.map Prod.fst).count "packages" = 1 := by
  refine ⟨seedEntry.filter (fun kv => kv.1 != "packages") ++
      [("packages", lookupField "packages" seedEntry)], _, rfl, ?_, ?_, ?_, ?_⟩
  · intro k hk
    rw [lookupField_append]
    by_cases hm : k ∈ (seedEntry.filter (fun kv => kv.1 != "packages")).map Prod.fst
    · rw [if_pos hm, lookupField_filter_ne k "packages" seedEntry hk]
    · rw [if_neg hm]
      have hm' : k ∉ seedEntry.map Prod.fst :=
        fun h => hm ((keys_filter_ne k "packages" seedEntry hk).mpr h)
      rw [lookupField_of_not_mem k seedEntry hm']
      simp [lookupField, Ne.symm hk]
  · intro k hk
    rw [List.map_append, List.mem_append, keys_filter_ne k "packages" seedEntry hk]
    simp [hk]
  · rw [lookupField_append]
    have hm : "packages" ∉ (seedEntry.filter (fun kv => kv.1 != "packages")).map Prod.fst := by
      intro hmem
      have := count_keys_filter_self "packages" seedEntry
      rw [List.count_eq_zero] at this
      exact this hmem
    rw [if_neg hm]
    simp [lookupField]
  · rw [List.map_append, List.count_append, count_keys_filter_self]
    simp

/-- C7 as amended (timestamps): the transformer takes no `now`; it reads the
clock twice during the call, `publishedAt` is the first reading and `updatedAt`
the second, so both equal `now` whenever the clock reads `now` both times, and
two calls on the same seed entry that get the same two readings give the same
record. -/
theorem timestamps_are_clock_readings (clock : Clock) (tick : Nat) (seedEntry : Obj) :
    getPath (convertSeedToRegistry clock tick seedEntry).1 ["_meta", officialKey, "publishedAt"]
      = Except.ok (JsVal.str (clock tick)) ∧
    getPath (convertSeedToRegistry clock tick seedEntry).1 ["_meta", officialKey, "updatedAt"]
      = Except.ok (JsVal.str (clock (tick + 1))) ∧
    (convertSeedToRegistry clock tick seedEntry).2 = tick + 2 ∧
    (∀ now : String, clock tick = now → clock (tick + 1) = now →
      getPath (convertSeedToRegistry clock tick seedEntry).1 ["_meta", officialKey, "publishedAt"]
        = Except.ok (JsVal.str now) ∧
      getPath (convertSeedToRegistry clock tick seedEntry).1 ["_meta", officialKey, "updatedAt"]
        = Except.ok (JsVal.str now)) ∧
    (∀ (clock' : Clock) (tick' : Nat), clock' tick' = clock tick →
      clock' (tick' + 1) = clock (tick + 1) →
      (convertSeedToRegistry clock' tick' seedEntry).1 =
        (convertSeedToRegistry clock tick seedEntry).1) := by
  refine ⟨?_, ?_, rfl, ?_, ?_⟩
  · simp [getPath, getProp, convertSeedToRegistry, lookupField]
  · simp [getPath, getProp, convertSeedToRegistry, lookupField]
  · intro now h1 h2
    simp [getPath, getProp, convertSeedToRegistry, lookupField, h1, h2]
  · intro clock' tick' h1 h2
    simp [convertSeedToRegistry, h1, h2]

/-- Counterexample to C7 as stated: on a clock that advances by a millisecond
between the two readings of one call, `publishedAt` and `updatedAt` of the
record differ, so they are not one `now`. -/
theorem timestamps_counterexample :
    getPath (convertSeedToRegistry sampleClock 0 seedA).1 ["_meta", officialKey, "publishedAt"]
      = Except.ok (JsVal.str "2025-01-01T00:00:00.000Z") ∧
    getPath (convertSeedToRegistry sampleClock 0 seedA).1 ["_meta", officialKey, "updatedAt"]
      = Except.ok (JsVal.str "2025-01-01T00:00:00.001Z") ∧
    getPath (convertSeedToRegistry sampleClock 0 seedA).1 ["_meta", officialKey, "publishedAt"]
      ≠ getPath (convertSeedToRegistry sampleClock 0 seedA).1 ["_meta", officialKey, "updatedAt"] := by
  decide

/-- C8 (fixed metadata envelope): the record made from any seed entry has a
`_meta` object with the single key `io.modelcontextprotocol.registry/official`,
whose value has `status` equal to `"active"` and `isLatest` equal to `true`. -/
theorem fixed_envelope (clock : Clock) (tick : Nat) (seedEntry : Obj) :
    ∃ server envelope,
      (convertSeedToRegistry clock tick seedEntry).1 =
        JsVal.obj [("server", server),
          ("_meta", JsVal.obj [("io.modelcontextprotocol.registry/official", JsVal.obj envelope)])] ∧
      lookupField "status" envelope = JsVal.str "active" ∧
      lookupField "isLatest" envelope = JsVal.bool true ∧
      envelope.map Prod.fst = ["status", "publishedAt", "updatedAt", "isLatest"] :=
  ⟨_, _, rfl, rfl, rfl, rfl⟩

/-! ## Names in the merged registry -/

theorem arraySome_true_of_left (cb : JsVal → Except JsErr Bool) (xs ys : List JsVal)
    (h : arraySome cb xs = Except.ok true) : arraySome cb (xs ++ ys) = Except.ok true := by
  rw [arraySome_append, h]

theorem arraySome_snoc_convert (clock : Clock) (tick : Nat) (s : Obj) (xs : List JsVal)
    (hp : isPrimitive (lookupField "name" s) = true)
    (h : arraySome (nameMatches (lookupField "name" s)) xs = Except.ok false) :
    arraySome (nameMatches (lookupField "name" s))
      (xs ++ [(convertSeedToRegistry clock tick s).1]) = Except.ok true := by
  rw [arraySome_append, h]
  simp only [arraySome]
  rw [nameMatches_of_recordName _ _ _ (recordName_convert clock tick s), strictEq_self _ hp]

theorem recordName_ne_of_scan_false (n : JsVal) (xs : List JsVal)
    (hp : isPrimitive n = true)
    (h : arraySome (nameMatches n) xs = Except.ok false) :
    ∀ e ∈ xs, recordName e ≠ Except.ok n := by
  intro e he hrec
  have h1 := arraySome_false _ _ h e he
  rw [nameMatches_of_recordName n e n hrec, strictEq_self n hp] at h1
  cases h1

/-- With primitive seed names, a successful loop appends records that carry
the names of seed entries, all different from each other and from the names
already stored, and afterwards every seed name is found in `servers`. -/
theorem mergeLoop_names (clock : Clock) (seeds : List Obj) (hprim : SeedNamesPrimitive seeds) :
    ∀ (st st' : LoopState) (xs : List JsVal), st.servers = JsVal.arr xs →
      mergeLoop clock seeds st = Except.ok st' →
      ∃ new, st'.servers = JsVal.arr (xs ++ new) ∧
        (∀ e ∈ new, ∃ s ∈ seeds, recordName e = Except.ok (lookupField "name" s)) ∧
        (∀ e ∈ new, recordName e ∉ xs.map recordName) ∧
        (new.map recordName).Nodup ∧
        (∀ s ∈ seeds,
          arraySome (nameMatches (lookupField "name" s)) (xs ++ new) = Except.ok true) := by
  induction seeds with
  | nil =>
    intro st st' xs hs h
    simp only [mergeLoop, Except.ok.injEq] at h
    subst h
    exact ⟨[], by simp [hs], by simp, by simp, by simp, by simp⟩
  | cons s rest ih =>
    intro st st' xs hs h
    have hps : isPrimitive (lookupField "name" s) = true := hprim s (List.mem_cons_self _ _)
    have hprest : SeedNamesPrimitive rest := fun t ht => hprim t (List.mem_cons_of_mem _ ht)
    obtain ⟨st1, hstep, hrest⟩ := mergeLoop_cons_ok clock s rest st st' h
    rcases mergeStep_ok clock st st1 s xs hs hstep with ⟨hscan, h1⟩ | ⟨hscan, h1⟩
    · have hs1 : st1.servers = JsVal.arr xs := by rw [h1]; exact hs
      obtain ⟨new, e1, e2, e3, e4, e5⟩ := ih hprest st1 st' xs hs1 hrest
      refine ⟨new, e1, ?_, e3, e4, ?_⟩
      · intro e he
        obtain ⟨t, ht, hn⟩ := e2 e he
        exact ⟨t, List.mem_cons_of_mem _ ht, hn⟩
      · intro t ht
        rcases List.mem_cons.mp ht with rfl | ht
        · exact arraySome_true_of_left _ _ _ hscan
        · exact e5 t ht
    · have hs1 : st1.servers =
          JsVal.arr (xs ++ [(convertSeedToRegistry clock st.tick s).1]) := by rw [h1]
      obtain ⟨new, e1, e2, e3, e4, e5⟩ := ih hprest st1 st' _ hs1 hrest
      have hc := recordName_convert clock st.tick s
      refine ⟨(convertSeedToRegistry clock st.tick s).1 :: new, ?_, ?_, ?_, ?_, ?_⟩
      · rw [e1]; simp
      · intro e he
        rcases List.mem_cons.mp he with rfl | he
        · exact ⟨s, List.mem_cons_self _ _, hc⟩
        · obtain ⟨t, ht, hn⟩ := e2 e he
          exact ⟨t, List.mem_cons_of_mem _ ht, hn⟩
      · intro e he hmem
        rcases List.mem_cons.mp he with rfl | he
        · obtain ⟨e0, he0, hn0⟩ := List.mem_map.mp hmem
          rw [hc] at hn0
          exact recordName_ne_of_scan_false _ xs hps hscan e0 he0 hn0
        · apply e3 e he
          rw [List.map_append]
          exact List.mem_append_left _ hmem
      · rw [List.map_cons, List.nodup_cons]
        refine ⟨?_, e4⟩
        intro hmem
        obtain ⟨e, he, hn⟩ := List.mem_map.mp hmem
        apply e3 e he
        rw [hn, List.map_append]
        exact List.mem_append_right _ (by simp)
      · intro t ht
        have happ : xs ++ (convertSeedToRegistry clock st.tick s).1 :: new =
            (xs ++ [(convertSeedToRegistry clock st.tick s).1]) ++ new := by simp
        rw [happ]
        rcases List.mem_cons.mp ht with rfl | ht
        · exact arraySome_true_of_left _ _ _ (arraySome_snoc_convert clock st.tick _ xs hps hscan)
        · exact e5 t ht

/-- When every seed name is already found in `servers`, the loop skips every
seed entry and changes nothing else. -/
theorem mergeLoop_all_skipped (clock : Clock) (seeds : List Obj) (ys : List JsVal) :
    (∀ s ∈ seeds, arraySome (nameMatches (lookupField "name" s)) ys = Except.ok true) →
    ∀ (a d t : Nat) (log : List LogEvent),
      mergeLoop clock seeds ⟨JsVal.arr ys, a, d, t, log⟩ = Except.ok
        ⟨JsVal.arr ys, a, d + seeds.length, t,
          log ++ seeds.map (fun s => LogEvent.skipped (lookupField "name" s))⟩ := by
  induction seeds with
  | nil =>
    intro _ a d t log
    simp [mergeLoop]
  | cons s rest ih =>
    intro hall a d t log
    have hskip := mergeStep_skip clock ⟨JsVal.arr ys, a, d, t, log⟩ s ys rfl
      (hall s (List.mem_cons_self _ _))
    simp only [mergeLoop, hskip]
    rw [ih (fun t ht => hall t (List.mem_cons_of_mem _ ht))]
    simp [Nat.add_assoc, Nat.add_comm 1]

theorem countP_namedBy_eq_zero (n : JsVal) (ys : List JsVal)
    (h : ∀ e ∈ ys, recordName e ≠ Except.ok n) : countNamed n ys = 0 := by
  unfold countNamed
  rw [List.countP_eq_zero]
  intro e he hnb
  unfold namedBy at hnb
  cases hr : recordName e with
  | error err => simp [hr] at hnb
  | ok m =>
    simp only [hr] at hnb
    exact h e he (by rw [hr, JsVal.beq_sound m n hnb])

theorem namedBy_iff (n e : JsVal) : namedBy n e = true ↔ recordName e = Except.ok n := by
  unfold namedBy
  cases hr : recordName e with
  | error err => simp
  | ok m =>
    simp only [JsVal.beq_iff, Except.ok.injEq]

theorem countNamed_eq_count (n : JsVal) (ys : List JsVal) :
    countNamed n ys = (ys.map recordName).count (Except.ok n) := by
  induction ys with
  | nil => rfl
  | cons y ys ih =>
    unfold countNamed at ih ⊢
    rw [List.countP_cons, ih, List.map_cons, List.count_cons]
    by_cases h : recordName y = Except.ok n
    · have hb : namedBy n y = true := (namedBy_iff n y).mpr h
      simp [hb, h]
    · have hb : ¬ namedBy n y = true := fun hb => h ((namedBy_iff n y).mp hb)
      simp [hb, h]

theorem countNamed_append (n : JsVal) (xs ys : List JsVal) :
    countNamed n (xs ++ ys) = countNamed n xs + countNamed n ys := by
  simp [countNamed, List.countP_append]

theorem sample_names_primitive :
    SeedNamesPrimitive [seedB, seedB2, seedA2] := by
  intro s hs
  simp only [List.mem_cons, List.mem_singleton, List.not_mem_nil, or_false] at hs
  rcases hs with rfl | rfl | rfl <;> rfl

theorem arraySome_nameMatches_congr (n : JsVal) :
    ∀ (ys ys1 : List JsVal), ys1.map recordName = ys.map recordName →
      arraySome (nameMatches n) ys1 = arraySome (nameMatches n) ys := by
  intro ys
  induction ys with
  | nil =>
    intro ys1 h
    cases ys1 with
    | nil => rfl
    | cons a as => simp at h
  | cons y ys ih =>
    intro ys1 h
    cases ys1 with
    | nil => simp at h
    | cons a as =>
      simp only [List.map_cons, List.cons.injEq] at h
      simp only [arraySome, nameMatches, h.1, ih as h.2]

theorem arraySome_defined (n : JsVal) (xs : List JsVal)
    (hwf : ∀ e ∈ xs, ∃ m, recordName e = Except.ok m) :
    ∃ b, arraySome (nameMatches n) xs = Except.ok b := by
  induction xs with
  | nil => exact ⟨false, rfl⟩
  | cons x xs ih =>
    obtain ⟨m, hm⟩ := hwf x (List.mem_cons_self _ _)
    obtain ⟨b, hb⟩ := ih (fun e he => hwf e (List.mem_cons_of_mem _ he))
    simp only [arraySome, nameMatches_of_recordName n x m hm]
    cases strictEq m n with
    | true => exact ⟨true, rfl⟩
    | false => exact ⟨b, hb⟩

/-- The loop runs to its end when the read `entry.server.name` succeeds on
every stored record and the name and version of every seed entry convert to a
string. -/
theorem mergeLoop_succeeds (clock : Clock) (seeds : List Obj) :
    ∀ (st : LoopState) (xs : List JsVal), st.servers = JsVal.arr xs →
      (∀ e ∈ xs, ∃ m, recordName e = Except.ok m) →
      SeedPrintable seeds →
      ∃ st', mergeLoop clock seeds st = Except.ok st' := by
  induction seeds with
  | nil => intro st _ _ _ _; exact ⟨st, rfl⟩
  | cons s rest ih =>
    intro st xs hs hwf hprint
    have hprest : SeedPrintable rest := fun t ht => hprint t (List.mem_cons_of_mem _ ht)
    obtain ⟨hn, hv⟩ := hprint s (List.mem_cons_self _ _)
    obtain ⟨b, hb⟩ := arraySome_defined (lookupField "name" s) xs hwf
    cases b with
    | true =>
      simp only [mergeLoop, mergeStep_skip clock st s xs hs hb]
      exact ih _ xs hs hwf hprest
    | false =>
      simp only [mergeLoop, mergeStep_add clock st s xs hs hb hn hv]
      apply ih _ (xs ++ [(convertSeedToRegistry clock st.tick s).1]) rfl _ hprest
      intro e he
      rcases List.mem_append.mp he with he | he
      · exact hwf e he
      · rw [List.mem_singleton.mp he]
        exact ⟨_, recordName_convert clock st.tick s⟩

/-- The merge succeeds on every registry document whose stored records all
have a `server` to read the name from, for a seed whose names and versions
convert to a string. -/
theorem mergeBody_succeeds (clock : Clock) (seedData : List Obj) (registry : JsVal)
    (xs : List JsVal) (ms : Obj)
    (hdoc : RegistryDocument registry xs ms)
    (hwf : ∀ e ∈ xs, ∃ m, recordName e = Except.ok m)
    (hprint : SeedPrintable seedData) :
    ∃ r, mergeBody clock seedData registry = Except.ok r := by
  obtain ⟨fs, rfl, hs, hm⟩ := hdoc
  obtain ⟨st, hloop⟩ :=
    mergeLoop_succeeds clock seedData ⟨JsVal.arr xs, 0, 0, 0, []⟩ xs rfl hwf hprint
  obtain ⟨new, _, hnew, _⟩ := mergeLoop_shape clock seedData _ st xs rfl hloop
  exact ⟨_, mergeBody_of_loop clock seedData fs ms xs (xs ++ new) st hs hm hloop hnew⟩

/-- C2 (name uniqueness is preserved): with seed names that are primitive
values, a successful merge pass only appends records; no appended record has
the name of a record stored before the run, no two appended records have the
same name, and when the stored names were pairwise distinct so are the names
after the pass. -/
theorem name_uniqueness_preserved (clock : Clock) (seedData : List Obj) (registry : JsVal)
    (xs : List JsVal) (ms : Obj) (r : MergeResult)
    (hdoc : RegistryDocument registry xs ms)
    (hprim : SeedNamesPrimitive seedData)
    (hrun : mergeBody clock seedData registry = Except.ok r) :
    ∃ new, getProp r.registry "servers" = Except.ok (JsVal.arr (xs ++ new)) ∧
      (∀ e ∈ new, recordName e ∉ xs.map recordName) ∧
      (new.map recordName).Nodup ∧
      ((xs.map recordName).Nodup → ((xs ++ new).map recordName).Nodup) := by
  obtain ⟨fs, st, new, _, _, _, hloop, hnew, hr⟩ :=
    mergeBody_ok clock seedData registry xs ms r hdoc hrun
  obtain ⟨new', e1, _, e3, e4, _⟩ := mergeLoop_names clock seedData hprim _ st xs rfl hloop
  have hnn : new' = new := by
    rw [hnew] at e1
    exact (List.append_cancel_left (JsVal.arr.inj e1)).symm
  subst hnn
  refine ⟨new', ?_, e3, e4, ?_⟩
  · rw [hr]
    simp only [getProp]
    rw [lookupField_setField_ne "metadata" "servers" _ _ (by decide), lookupField_setField_self]
  · intro hx
    rw [List.map_append, List.nodup_append]
    refine ⟨hx, e4, ?_⟩
    intro a ha hb
    obtain ⟨e, he, hn⟩ := List.mem_map.mp hb
    exact e3 e he (hn ▸ ha)

/-- Witness of C2: a seed that repeats the name `b` and carries the stored
name `a`, against a registry holding `a`. -/
theorem name_uniqueness_preserved_witness :
    RegistryDocument registryWithA [recordA]
      [("count", JsVal.num 1), ("source", JsVal.str "seed")] ∧
    SeedNamesPrimitive [seedB, seedB2, seedA2] ∧
    ([recordA].map recordName).Nodup ∧
    (∃ r, mergeBody sampleClock [seedB, seedB2, seedA2] registryWithA = Except.ok r ∧
      r.addedCount = 1 ∧ r.duplicateCount = 2 ∧
      ∃ new, getProp r.registry "servers" = Except.ok (JsVal.arr ([recordA] ++ new)) ∧
        (∀ e ∈ new, recordName e ∉ [recordA].map recordName) ∧
        (new.map recordName).Nodup ∧
        (([recordA].map recordName).Nodup → (([recordA] ++ new).map recordName).Nodup)) :=
  have hdoc : RegistryDocument registryWithA [recordA]
      [("count", JsVal.num 1), ("source", JsVal.str "seed")] := ⟨_, rfl, rfl, rfl⟩
  ⟨hdoc, sample_names_primitive, by decide, _, rfl, rfl, rfl,
    name_uniqueness_preserved sampleClock [seedB, seedB2, seedA2] registryWithA [recordA] _ _
      hdoc sample_names_primitive rfl⟩

/-- C3 as amended (no-duplicate invariant): with seed names that are primitive
values, for every name carried by a record stored before the run, a successful
merge pass leaves the number of records with that name unchanged; it is
exactly one when the stored names were pairwise distinct. -/
theorem stored_names_keep_their_count (clock : Clock) (seedData : List Obj) (registry : JsVal)
    (xs : List JsVal) (ms : Obj) (r : MergeResult)
    (hdoc : RegistryDocument registry xs ms)
    (hprim : SeedNamesPrimitive seedData)
    (hrun : mergeBody clock seedData registry = Except.ok r) :
    ∃ ys, getProp r.registry "servers" = Except.ok (JsVal.arr ys) ∧
      ∀ n, (∃ e ∈ xs, recordName e = Except.ok n) →
        countNamed n ys = countNamed n xs ∧
        ((xs.map recordName).Nodup → countNamed n ys = 1) := by
  obtain ⟨fs, st, new, _, _, _, hloop, hnew, hr⟩ :=
    mergeBody_ok clock seedData registry xs ms r hdoc hrun
  obtain ⟨new', e1, _, e3, _, _⟩ := mergeLoop_names clock seedData hprim _ st xs rfl hloop
  have hnn : new' = new := by
    rw [hnew] at e1
    exact (List.append_cancel_left (JsVal.arr.inj e1)).symm
  subst hnn
  refine ⟨xs ++ new', ?_, ?_⟩
  · rw [hr]
    simp only [getProp]
    rw [lookupField_setField_ne "metadata" "servers" _ _ (by decide), lookupField_setField_self]
  · rintro n ⟨e0, he0, hn0⟩
    have hzero : countNamed n new' = 0 := by
      apply countP_namedBy_eq_zero
      intro e he hn
      apply e3 e he
      rw [hn, ← hn0]
      exact List.mem_map_of_mem _ he0
    have hsame : countNamed n (xs ++ new') = countNamed n xs := by
      rw [countNamed_append, hzero, Nat.add_zero]
    refine ⟨hsame, ?_⟩
    intro hx
    rw [hsame, countNamed_eq_count]
    exact List.count_eq_one_of_mem hx (hn0 ▸ List.mem_map_of_mem _ he0)

/-- Witness of C3 as amended: the stored name `a` is still carried by one
record after merging a seed that carries `a` again. -/
theorem stored_names_keep_their_count_witness :
    RegistryDocument registryWithA [recordA]
      [("count", JsVal.num 1), ("source", JsVal.str "seed")] ∧
    SeedNamesPrimitive [seedB, seedB2, seedA2] ∧
    (∃ r, mergeBody sampleClock [seedB, seedB2, seedA2] registryWithA = Except.ok r ∧
      ∃ ys, getProp r.registry "servers" = Except.ok (JsVal.arr ys) ∧
        ∀ n, (∃ e ∈ [recordA], recordName e = Except.ok n) →
          countNamed n ys = countNamed n [recordA] ∧
          (([recordA].map recordName).Nodup → countNamed n ys = 1)) :=
  have hdoc : RegistryDocument registryWithA [recordA]
      [("count", JsVal.num 1), ("source", JsVal.str "seed")] := ⟨_, rfl, rfl, rfl⟩
  ⟨hdoc, sample_names_primitive, _, rfl,
    stored_names_keep_their_count sampleClock [seedB, seedB2, seedA2] registryWithA [recordA] _ _
      hdoc sample_names_primitive rfl⟩

/-- Counterexample to C3 as stated: the name `a` is carried by a record of the
input registry, the merge succeeds, and afterwards two records carry `a`. -/
theorem no_duplicate_counterexample :
    RegistryDocument registryTwiceA [recordA, recordA] [("count", JsVal.num 2)] ∧
    (∃ e ∈ [recordA, recordA], recordName e = Except.ok (JsVal.str "a")) ∧
    (∃ ys, serversAfter sampleClock [seedA2, seedB] registryTwiceA = some ys ∧
      ys.length = 3 ∧ countNamed (JsVal.str "a") ys = 2) := by
  refine ⟨⟨_, rfl, rfl, rfl⟩, by decide, _, rfl, by decide, by decide⟩

/-- C4 (idempotence): with seed names that are primitive values, merging the
same seed into the document produced by a successful merge succeeds under any
clock, adds nothing, skips every seed entry and produces that same document, so
`servers` and its length are unchanged.  The same holds for any registry
document whose records carry the same names in the same order, such as the
written file read back: the run adds nothing and leaves its `servers` as they
are. -/
theorem merge_idempotent (clock clock2 : Clock) (seedData : List Obj) (registry : JsVal)
    (xs : List JsVal) (ms : Obj) (r1 : MergeResult)
    (hdoc : RegistryDocument registry xs ms)
    (hprim : SeedNamesPrimitive seedData)
    (hrun : mergeBody clock seedData registry = Except.ok r1) :
    ∃ r2 ys, mergeBody clock2 seedData r1.registry = Except.ok r2 ∧
      r2.addedCount = 0 ∧ r2.duplicateCount = seedData.length ∧
      r2.log = seedData.map (fun s => LogEvent.skipped (lookupField "name" s)) ∧
      getProp r1.registry "servers" = Except.ok (JsVal.arr ys) ∧
      getProp r2.registry "servers" = Except.ok (JsVal.arr ys) ∧
      r2.registry = r1.registry ∧
      (∀ (reread : JsVal) (ys1 : List JsVal) (ms1 : Obj),
        RegistryDocument reread ys1 ms1 → ys1.map recordName = ys.map recordName →
        ∃ r3, mergeBody clock2 seedData reread = Except.ok r3 ∧
          r3.addedCount = 0 ∧ r3.duplicateCount = seedData.length ∧
          getProp r3.registry "servers" = Except.ok (JsVal.arr ys1)) := by
  obtain ⟨fs, st, new, _, hs, hm, hloop, hnew, hr⟩ :=
    mergeBody_ok clock seedData registry xs ms r1 hdoc hrun
  obtain ⟨new', e1, _, _, _, e5⟩ := mergeLoop_names clock seedData hprim _ st xs rfl hloop
  have hnn : new' = new := by
    rw [hnew] at e1
    exact (List.append_cancel_left (JsVal.arr.inj e1)).symm
  subst hnn
  -- the document after the first run
  have hs1 : lookupField "servers" (setField "metadata"
      (JsVal.obj (setField "count" (JsVal.num (xs ++ new').length) ms))
      (setField "servers" (JsVal.arr (xs ++ new')) fs)) = JsVal.arr (xs ++ new') := by
    rw [lookupField_setField_ne "metadata" "servers" _ _ (by decide), lookupField_setField_self]
  have hm1 : lookupField "metadata" (setField "metadata"
      (JsVal.obj (setField "count" (JsVal.num (xs ++ new').length) ms))
      (setField "servers" (JsVal.arr (xs ++ new')) fs)) =
      JsVal.obj (setField "count" (JsVal.num (xs ++ new').length) ms) := by
    rw [lookupField_setField_self]
  have hloop2 := mergeLoop_all_skipped clock2 seedData (xs ++ new') e5 0 0 0 []
  have hbody2 := mergeBody_of_loop clock2 seedData _ _ (xs ++ new') (xs ++ new') _ hs1 hm1 hloop2 rfl
  have hk1 : "servers" ∈ (setField "metadata"
      (JsVal.obj (setField "count" (JsVal.num (xs ++ new').length) ms))
      (setField "servers" (JsVal.arr (xs ++ new')) fs)).map Prod.fst := by
    rw [mem_keys_setField, mem_keys_setField]
    exact Or.inr (Or.inl rfl)
  have hfix1 := setField_lookupField_self "servers" _ hk1
  rw [hs1] at hfix1
  have hsame : (JsVal.obj (setField "metadata"
      (JsVal.obj (setField "count" (JsVal.num (xs ++ new').length)
        (setField "count" (JsVal.num (xs ++ new').length) ms)))
      (setField "servers" (JsVal.arr (xs ++ new'))
        (setField "metadata" (JsVal.obj (setField "count" (JsVal.num (xs ++ new').length) ms))
          (setField "servers" (JsVal.arr (xs ++ new')) fs))))) = r1.registry := by
    rw [hr, hfix1, setField_setField_self, setField_setField_self]
  refine ⟨_, xs ++ new', by rw [hr]; exact hbody2, rfl, by simp, by simp, ?_, ?_, hsame, ?_⟩
  · rw [hr]
    simp only [getProp, hs1]
  · simp only [hsame]
    rw [hr]
    simp only [getProp, hs1]
  · rintro reread ys1 ms1 ⟨fs1, rfl, hsr, hmr⟩ hnames
    have hall : ∀ s ∈ seedData,
        arraySome (nameMatches (lookupField "name" s)) ys1 = Except.ok true := by
      intro s hs
      rw [arraySome_nameMatches_congr _ (xs ++ new') ys1 hnames]
      exact e5 s hs
    have hloop3 := mergeLoop_all_skipped clock2 seedData ys1 hall 0 0 0 []
    have hbody3 := mergeBody_of_loop clock2 seedData fs1 ms1 ys1 ys1 _ hsr hmr hloop3 rfl
    refine ⟨_, hbody3, rfl, by simp, ?_⟩
    simp only [getProp]
    rw [lookupField_setField_ne "metadata" "servers" _ _ (by decide), lookupField_setField_self]

/-- Witness of C4: the seed `b, b, a` merged twice into a registry holding
`a`. -/
theorem merge_idempotent_witness :
    RegistryDocument registryWithA [recordA]
      [("count", JsVal.num 1), ("source", JsVal.str "seed")] ∧
    SeedNamesPrimitive [seedB, seedB2, seedA2] ∧
    (∃ r1, mergeBody sampleClock [seedB, seedB2, seedA2] registryWithA = Except.ok r1 ∧
      r1.addedCount = 1 ∧
      ∃ r2 ys, mergeBody (fun _ => "2026-01-01T00:00:00.000Z") [seedB, seedB2, seedA2]
          r1.registry = Except.ok r2 ∧
        r2.addedCount = 0 ∧ r2.duplicateCount = [seedB, seedB2, seedA2].length ∧
        r2.log = [seedB, seedB2, seedA2].map (fun s => LogEvent.skipped (lookupField "name" s)) ∧
        getProp r1.registry "servers" = Except.ok (JsVal.arr ys) ∧
        getProp r2.registry "servers" = Except.ok (JsVal.arr ys) ∧
        r2.registry = r1.registry ∧
        (∀ (reread : JsVal) (ys1 : List JsVal) (ms1 : Obj),
          RegistryDocument reread ys1 ms1 → ys1.map recordName = ys.map recordName →
          ∃ r3, mergeBody (fun _ => "2026-01-01T00:00:00.000Z") [seedB, seedB2, seedA2]
              reread = Except.ok r3 ∧
            r3.addedCount = 0 ∧ r3.duplicateCount = [seedB, seedB2, seedA2].length ∧
            getProp r3.registry "servers" = Except.ok (JsVal.arr ys1))) :=
  have hdoc : RegistryDocument registryWithA [recordA]
      [("count", JsVal.num 1), ("source", JsVal.str "seed")] := ⟨_, rfl, rfl, rfl⟩
  ⟨hdoc, sample_names_primitive, _, rfl, rfl,
    merge_idempotent sampleClock _ [seedB, seedB2, seedA2] registryWithA [recordA] _ _
      hdoc sample_names_primitive rfl⟩

/-! ## Duplicates inside the seed -/

/-- The duplicate counter counts the skip lines of the log, and the two
counters together count the seed entries. -/
theorem mergeLoop_counts (clock : Clock) (seeds : List Obj) :
    ∀ (st st' : LoopState) (xs : List JsVal), st.servers = JsVal.arr xs →
      mergeLoop clock seeds st = Except.ok st' →
      ∃ events, st'.log = st.log ++ events ∧
        st'.duplicateCount = st.duplicateCount + events.countP LogEvent.isSkipped ∧
        st'.addedCount + st'.duplicateCount =
          st.addedCount + st.duplicateCount + seeds.length := by
  induction seeds with
  | nil =>
    intro st st' xs hs h
    simp only [mergeLoop, Except.ok.injEq] at h
    subst h
    exact ⟨[], by simp, by simp, by simp⟩
  | cons s rest ih =>
    intro st st' xs hs h
    obtain ⟨st1, hstep, hrest⟩ := mergeLoop_cons_ok clock s rest st st' h
    rcases mergeStep_ok clock st st1 s xs hs hstep with ⟨_, h1⟩ | ⟨_, h1⟩
    · have hs1 : st1.servers = JsVal.arr xs := by rw [h1]; exact hs
      obtain ⟨events, e1, e2, e3⟩ := ih st1 st' xs hs1 hrest
      refine ⟨LogEvent.skipped (lookupField "name" s) :: events, ?_, ?_, ?_⟩
      · rw [e1, h1]; simp
      · rw [e2, h1]; simp [List.countP_cons, LogEvent.isSkipped]; omega
      · rw [e3, h1]; simp only [List.length_cons]; omega
    · have hs1 : st1.servers =
          JsVal.arr (xs ++ [(convertSeedToRegistry clock st.tick s).1]) := by rw [h1]
      obtain ⟨events, e1, e2, e3⟩ := ih st1 st' _ hs1 hrest
      refine ⟨LogEvent.added (lookupField "name" s) (lookupField "version" s) :: events,
        ?_, ?_, ?_⟩
      · rw [e1, h1]; simp
      · rw [e2, h1]; simp [List.countP_cons, LogEvent.isSkipped]
      · rw [e3, h1]; simp only [List.length_cons]; omega

/-- Once a record named `n` is found by the scan, every later seed entry named
`n` is skipped and no appended record is named `n`. -/
theorem mergeLoop_after_present (clock : Clock) (n : JsVal) (rest : List Obj) :
    ∀ (st st' : LoopState) (ys : List JsVal), st.servers = JsVal.arr ys →
      arraySome (nameMatches n) ys = Except.ok true →
      mergeLoop clock rest st = Except.ok st' →
      ∃ new events, st'.servers = JsVal.arr (ys ++ new) ∧
        st'.log = st.log ++ events ∧ events.length = rest.length ∧
        (∀ e ∈ new, recordName e ≠ Except.ok n) ∧
        (∀ (j : Nat) (t : Obj), rest[j]? = some t → lookupField "name" t = n →
          events[j]? = some (LogEvent.skipped n)) := by
  induction rest with
  | nil =>
    intro st st' ys hs _ h
    simp only [mergeLoop, Except.ok.injEq] at h
    subst h
    exact ⟨[], [], by simp [hs], by simp, by simp, by simp, by simp⟩
  | cons s rest ih =>
    intro st st' ys hs hpresent h
    obtain ⟨st1, hstep, hrest⟩ := mergeLoop_cons_ok clock s rest st st' h
    rcases mergeStep_ok clock st st1 s ys hs hstep with ⟨_, h1⟩ | ⟨hscan, h1⟩
    · have hs1 : st1.servers = JsVal.arr ys := by rw [h1]; exact hs
      obtain ⟨new, events, e1, e2, e3, e4, e5⟩ := ih st1 st' ys hs1 hpresent hrest
      refine ⟨new, LogEvent.skipped (lookupField "name" s) :: events, e1, ?_, ?_, e4, ?_⟩
      · rw [e2, h1]; simp
      · simp [e3]
      · intro j t hj hn
        cases j with
        | zero =>
          simp only [List.getElem?_cons_zero, Option.some.injEq] at hj
          subst hj
          simp [hn]
        | succ j =>
          simp only [List.getElem?_cons_succ] at hj ⊢
          exact e5 j t hj hn
    · have hne : lookupField "name" s ≠ n := by
        intro heq
        rw [heq, hpresent] at hscan
        cases hscan
      have hs1 : st1.servers =
          JsVal.arr (ys ++ [(convertSeedToRegistry clock st.tick s).1]) := by rw [h1]
      have hpresent1 := arraySome_true_of_left _ ys
        [(convertSeedToRegistry clock st.tick s).1] hpresent
      obtain ⟨new, events, e1, e2, e3, e4, e5⟩ := ih st1 st' _ hs1 hpresent1 hrest
      refine ⟨(convertSeedToRegistry clock st.tick s).1 :: new,
        LogEvent.added (lookupField "name" s) (lookupField "version" s) :: events,
        ?_, ?_, ?_, ?_, ?_⟩
      · rw [e1]; simp
      · rw [e2, h1]; simp
      · simp [e3]
      · intro e he
        rcases List.mem_cons.mp he with rfl | he
        · rw [recordName_convert]
          intro hc
          exact hne (Except.ok.inj hc)
        · exact e4 e he
      · intro j t hj hn
        cases j with
        | zero =>
          simp only [List.getElem?_cons_zero, Option.some.injEq] at hj
          subst hj
          exact absurd hn hne
        | succ j =>
          simp only [List.getElem?_cons_succ] at hj ⊢
          exact e5 j t hj hn

/-- For a primitive name `n` carried by a seed entry and by no stored record,
the loop appends the transformation of the first seed entry named `n`, and
nothing else named `n`; the later seed entries named `n` are skipped. -/
theorem mergeLoop_first_write (clock : Clock) (n : JsVal) (hn : isPrimitive n = true)
    (seeds : List Obj) :
    ∀ (st st' : LoopState) (xs : List JsVal), st.servers = JsVal.arr xs →
      (∀ e ∈ xs, recordName e ≠ Except.ok n) →
      (∃ s ∈ seeds, lookupField "name" s = n) →
      mergeLoop clock seeds st = Except.ok st' →
      ∃ before s after tick new logBefore logAfter,
        seeds = before ++ s :: after ∧
        (∀ t ∈ before, lookupField "name" t ≠ n) ∧ lookupField "name" s = n ∧
        st'.servers = JsVal.arr (xs ++ new) ∧
        countNamed n (xs ++ new) = 1 ∧
        (convertSeedToRegistry clock tick s).1 ∈ new ∧
        st'.log = st.log ++
          (logBefore ++ LogEvent.added n (lookupField "version" s) :: logAfter) ∧
        logBefore.length = before.length ∧ logAfter.length = after.length ∧
        (∀ (j : Nat) (t : Obj), after[j]? = some t → lookupField "name" t = n →
          logAfter[j]? = some (LogEvent.skipped n)) := by
  induction seeds with
  | nil =>
    intro st st' xs _ _ hex _
    obtain ⟨s, hs, _⟩ := hex
    cases hs
  | cons s0 rest ih =>
    intro st st' xs hs habsent hex h
    obtain ⟨st1, hstep, hrest⟩ := mergeLoop_cons_ok clock s0 rest st st' h
    by_cases hname : lookupField "name" s0 = n
    · -- the first seed entry named `n`
      have hscan : arraySome (nameMatches n) xs = Except.ok false := by
        apply arraySome_of_all_false
        intro e he
        cases hsc : nameMatches n e with
        | error err =>
          exfalso
          rcases mergeStep_ok clock st st1 s0 xs hs hstep with ⟨hq, _⟩ | ⟨hq, _⟩
          · rw [hname] at hq
            obtain ⟨e', he', hc⟩ := arraySome_true _ _ hq
            obtain ⟨m, hm, hst⟩ := nameMatches_ok n e' true hc
            exact habsent e' he' (by rw [hm, strictEq_eq m n hst])
          · rw [hname] at hq
            have := arraySome_false _ _ hq e he
            rw [hsc] at this
            cases this
        | ok b =>
          cases b with
          | false => rfl
          | true =>
            exfalso
            obtain ⟨m, hm, hst⟩ := nameMatches_ok n e true hsc
            exact habsent e he (by rw [hm, strictEq_eq m n hst])
      have h1 : st1 = {
          servers := JsVal.arr (xs ++ [(convertSeedToRegistry clock st.tick s0).1])
          addedCount := st.addedCount + 1
          duplicateCount := st.duplicateCount
          tick := st.tick + 2
          log := st.log ++
            [LogEvent.added (lookupField "name" s0) (lookupField "version" s0)] } := by
        rcases mergeStep_ok clock st st1 s0 xs hs hstep with ⟨hq, _⟩ | ⟨_, h1⟩
        · rw [hname, hscan] at hq
          cases hq
        · exact h1
      have hs1 : st1.servers =
          JsVal.arr (xs ++ [(convertSeedToRegistry clock st.tick s0).1]) := by rw [h1]
      have hpresent : arraySome (nameMatches n)
          (xs ++ [(convertSeedToRegistry clock st.tick s0).1]) = Except.ok true := by
        have := arraySome_snoc_convert clock st.tick s0 xs (by rw [hname]; exact hn)
          (by rw [hname]; exact hscan)
        rw [hname] at this
        exact this
      obtain ⟨new, events, e1, e2, e3, e4, e5⟩ :=
        mergeLoop_after_present clock n rest st1 st' _ hs1 hpresent hrest
      refine ⟨[], s0, rest, st.tick, (convertSeedToRegistry clock st.tick s0).1 :: new,
        [], events, rfl, by simp, hname, ?_, ?_, List.mem_cons_self _ _, ?_, rfl, e3, e5⟩
      · rw [e1]; simp
      · have hc : countNamed n [(convertSeedToRegistry clock st.tick s0).1] = 1 := by
          have hb : namedBy n (convertSeedToRegistry clock st.tick s0).1 = true := by
            rw [namedBy_iff, recordName_convert, hname]
          simp [countNamed, List.countP_cons, hb]
        have happ : xs ++ (convertSeedToRegistry clock st.tick s0).1 :: new =
            xs ++ ([(convertSeedToRegistry clock st.tick s0).1] ++ new) := by simp
        rw [happ, countNamed_append, countNamed_append, hc,
          countP_namedBy_eq_zero n xs habsent, countP_namedBy_eq_zero n new e4]
      · rw [e2, h1, hname]; simp
    · -- a seed entry with another name
      have hex' : ∃ s ∈ rest, lookupField "name" s = n := by
        obtain ⟨s, hsm, hsn⟩ := hex
        rcases List.mem_cons.mp hsm with rfl | hsm
        · exact absurd hsn hname
        · exact ⟨s, hsm, hsn⟩
      rcases mergeStep_ok clock st st1 s0 xs hs hstep with ⟨_, h1⟩ | ⟨_, h1⟩
      · have hs1 : st1.servers = JsVal.arr xs := by rw [h1]; exact hs
        obtain ⟨before, s, after, tick, new, logBefore, logAfter,
          e1, e2, e3, e4, e5, e6, e7, e8, e9, e10⟩ := ih st1 st' xs hs1 habsent hex' hrest
        refine ⟨s0 :: before, s, after, tick, new,
          LogEvent.skipped (lookupField "name" s0) :: logBefore, logAfter,
          by rw [e1]; rfl, ?_, e3, e4, e5, e6, ?_, by simp [e8], e9, e10⟩
        · intro t ht
          rcases List.mem_cons.mp ht with rfl | ht
          · exact hname
          · exact e2 t ht
        · rw [e7, h1]; simp
      · have hs1 : st1.servers =
            JsVal.arr (xs ++ [(convertSeedToRegistry clock st.tick s0).1]) := by rw [h1]
        have habsent1 : ∀ e ∈ xs ++ [(convertSeedToRegistry clock st.tick s0).1],
            recordName e ≠ Except.ok n := by
          intro e he
          rcases List.mem_append.mp he with he | he
          · exact habsent e he
          · rw [List.mem_singleton.mp he, recordName_convert]
            intro hc
            exact hname (Except.ok.inj hc)
        obtain ⟨before, s, after, tick, new, logBefore, logAfter,
          e1, e2, e3, e4, e5, e6, e7, e8, e9, e10⟩ := ih st1 st' _ hs1 habsent1 hex' hrest
        refine ⟨s0 :: before, s, after, tick,
          (convertSeedToRegistry clock st.tick s0).1 :: new,
          LogEvent.added (lookupField "name" s0) (lookupField "version" s0) :: logBefore,
          logAfter, by rw [e1]; rfl, ?_, e3, ?_, ?_, List.mem_cons_of_mem _ e6, ?_,
          by simp [e8], e9, e10⟩
        · intro t ht
          rcases List.mem_cons.mp ht with rfl | ht
          · exact hname
          · exact e2 t ht
        · rw [e4]; simp
        · have happ : xs ++ (convertSeedToRegistry clock st.tick s0).1 :: new =
              (xs ++ [(convertSeedToRegistry clock st.tick s0).1]) ++ new := by simp
          rw [happ]; exact e5
        · rw [e7, h1]; simp

/-- C5 (first write wins inside the seed): with seed names that are primitive
values, for a name `n` carried by a seed entry and by no record of the input
registry, after a successful merge pass exactly one record of `servers` is
named `n`, the transformation of the first seed entry named `n` is in
`servers`, the log has an added line for that entry and a skipped line for
every later seed entry named `n`, and the duplicate counter counts the skipped
lines; a seed of two entries named `n` gives added = 1, skipped = 1. -/
theorem first_write_wins (clock : Clock) (seedData : List Obj) (registry : JsVal)
    (xs : List JsVal) (ms : Obj) (r : MergeResult) (n : JsVal)
    (hdoc : RegistryDocument registry xs ms)
    (hprim : SeedNamesPrimitive seedData)
    (hrun : mergeBody clock seedData registry = Except.ok r)
    (hseed : ∃ s ∈ seedData, lookupField "name" s = n)
    (habsent : ∀ e ∈ xs, recordName e ≠ Except.ok n) :
    ∃ before s after tick ys logBefore logAfter,
      seedData = before ++ s :: after ∧
      (∀ t ∈ before, lookupField "name" t ≠ n) ∧ lookupField "name" s = n ∧
      getProp r.registry "servers" = Except.ok (JsVal.arr ys) ∧
      countNamed n ys = 1 ∧
      (convertSeedToRegistry clock tick s).1 ∈ ys ∧
      r.log = logBefore ++ LogEvent.added n (lookupField "version" s) :: logAfter ∧
      logBefore.length = before.length ∧ logAfter.length = after.length ∧
      (∀ (j : Nat) (t : Obj), after[j]? = some t → lookupField "name" t = n →
        logAfter[j]? = some (LogEvent.skipped n)) ∧
      r.duplicateCount = r.log.countP LogEvent.isSkipped ∧
      r.addedCount + r.duplicateCount = seedData.length ∧
      (∀ s1 s2, seedData = [s1, s2] → lookupField "name" s1 = n → lookupField "name" s2 = n →
        r.addedCount = 1 ∧ r.duplicateCount = 1) := by
  obtain ⟨fs, st, new, _, _, _, hloop, hnew, hr⟩ :=
    mergeBody_ok clock seedData registry xs ms r hdoc hrun
  have hn : isPrimitive n = true := by
    obtain ⟨s, hs, hsn⟩ := hseed
    rw [← hsn]
    exact hprim s hs
  obtain ⟨before, s, after, tick, new', logBefore, logAfter,
    e1, e2, e3, e4, e5, e6, e7, e8, e9, e10⟩ :=
    mergeLoop_first_write clock n hn seedData _ st xs rfl habsent hseed hloop
  have hnn : new' = new := by
    rw [hnew] at e4
    exact (List.append_cancel_left (JsVal.arr.inj e4)).symm
  subst hnn
  obtain ⟨events, c1, c2, c3⟩ := mergeLoop_counts clock seedData _ st xs rfl hloop
  simp only [List.nil_append, Nat.zero_add] at e7 c1 c2 c3
  have hlog : r.log = st.log := by rw [hr]
  have hdup : r.duplicateCount = st.duplicateCount := by rw [hr]
  have hadd : r.addedCount = st.addedCount := by rw [hr]
  have hcount : r.duplicateCount = r.log.countP LogEvent.isSkipped := by
    rw [hdup, hlog, c2, c1]
  have hsum : r.addedCount + r.duplicateCount = seedData.length := by
    rw [hadd, hdup, c3]
  refine ⟨before, s, after, tick, xs ++ new', logBefore, logAfter, e1, e2, e3, ?_, e5,
    List.mem_append_right _ e6, by rw [hlog, e7], e8, e9, e10, hcount, hsum, ?_⟩
  · rw [hr]
    simp only [getProp]
    rw [lookupField_setField_ne "metadata" "servers" _ _ (by decide), lookupField_setField_self]
  · intro s1 s2 hseedEq h1 h2
    have hb : before = [] := by
      cases before with
      | nil => rfl
      | cons b bs =>
        exfalso
        rw [hseedEq] at e1
        simp only [List.cons_append, List.cons.injEq] at e1
        exact e2 b (List.mem_cons_self _ _) (e1.1 ▸ h1)
    subst hb
    rw [hseedEq] at e1
    simp only [List.nil_append, List.cons.injEq] at e1
    obtain ⟨_, hafter⟩ := e1
    subst hafter
    have hb0 : logBefore = [] := List.eq_nil_of_length_eq_zero e8
    subst hb0
    have h0 := e10 0 s2 rfl h2
    have hla : logAfter = [LogEvent.skipped n] := by
      cases logAfter with
      | nil => simp at e9
      | cons a as =>
        simp only [List.getElem?_cons_zero, Option.some.injEq] at h0
        simp only [List.length_cons, List.length_nil, Nat.add_left_eq_self] at e9
        rw [h0, List.eq_nil_of_length_eq_zero e9]
    have hd : r.duplicateCount = 1 := by
      rw [hcount, hlog, e7, hla]
      simp [List.countP_cons, LogEvent.isSkipped]
    rw [hseedEq, hd] at hsum
    simp only [List.length_cons, List.length_nil] at hsum
    exact ⟨by omega, hd⟩

/-- Witness of C5: Scenario C, a seed of two entries named `b` against a
registry that holds only `a`. -/
theorem first_write_wins_witness :
    RegistryDocument registryWithA [recordA]
      [("count", JsVal.num 1), ("source", JsVal.str "seed")] ∧
    SeedNamesPrimitive [seedB, seedB2] ∧
    (∃ s ∈ [seedB, seedB2], lookupField "name" s = JsVal.str "b") ∧
    (∀ e ∈ [recordA], recordName e ≠ Except.ok (JsVal.str "b")) ∧
    (∃ r, mergeBody sampleClock [seedB, seedB2] registryWithA = Except.ok r ∧
      r.addedCount = 1 ∧ r.duplicateCount = 1 ∧
      getProp r.registry "servers" =
        Except.ok (JsVal.arr [recordA, (convertSeedToRegistry sampleClock 0 seedB).1]) ∧
      ∃ before s after tick ys logBefore logAfter,
        [seedB, seedB2] = before ++ s :: after ∧
        (∀ t ∈ before, lookupField "name" t ≠ JsVal.str "b") ∧
        lookupField "name" s = JsVal.str "b" ∧
        getProp r.registry "servers" = Except.ok (JsVal.arr ys) ∧
        countNamed (JsVal.str "b") ys = 1 ∧
        (convertSeedToRegistry sampleClock tick s).1 ∈ ys ∧
        r.log = logBefore ++ LogEvent.added (JsVal.str "b") (lookupField "version" s) :: logAfter ∧
        logBefore.length = before.length ∧ logAfter.length = after.length ∧
        (∀ (j : Nat) (t : Obj), after[j]? = some t → lookupField "name" t = JsVal.str "b" →
          logAfter[j]? = some (LogEvent.skipped (JsVal.str "b"))) ∧
        r.duplicateCount = r.log.countP LogEvent.isSkipped ∧
        r.addedCount + r.duplicateCount = [seedB, seedB2].length ∧
        (∀ s1 s2, [seedB, seedB2] = [s1, s2] → lookupField "name" s1 = JsVal.str "b" →
          lookupField "name" s2 = JsVal.str "b" → r.addedCount = 1 ∧ r.duplicateCount = 1)) :=
  have hdoc : RegistryDocument registryWithA [recordA]
      [("count", JsVal.num 1), ("source", JsVal.str "seed")] := ⟨_, rfl, rfl, rfl⟩
  have hprim : SeedNamesPrimitive [seedB, seedB2] := fun s hs =>
    sample_names_primitive s (by
      simp only [List.mem_cons, List.mem_singleton, List.not_mem_nil, or_false] at hs ⊢
      rcases hs with h | h
      · exact Or.inl h
      · exact Or.inr (Or.inl h))
  have hseed : ∃ s ∈ [seedB, seedB2], lookupField "name" s = JsVal.str "b" :=
    ⟨seedB, List.mem_cons_self _ _, rfl⟩
  have habsent : ∀ e ∈ [recordA], recordName e ≠ Except.ok (JsVal.str "b") := by decide
  ⟨hdoc, hprim, hseed, habsent, _, rfl, rfl, rfl, rfl,
    first_write_wins sampleClock [seedB, seedB2] registryWithA [recordA] _ _ _
      hdoc hprim rfl hseed habsent⟩

/-! ## Counters and completeness -/

/-- C14 (counter accounting): after a successful merge pass added + skipped is
the number of seed entries, the length of `servers` is its initial length plus
added, and `metadata.count` is that number. -/
theorem counter_accounting (clock : Clock) (seedData : List Obj) (registry : JsVal)
    (xs : List JsVal) (ms : Obj) (r : MergeResult)
    (hdoc : RegistryDocument registry xs ms)
    (hrun : mergeBody clock seedData registry = Except.ok r) :
    r.addedCount + r.duplicateCount = seedData.length ∧
    ∃ ys, getProp r.registry "servers" = Except.ok (JsVal.arr ys) ∧
      ys.length = xs.length + r.addedCount ∧
      docCount r.registry = Except.ok (JsVal.num ((xs.length + r.addedCount : Nat) : Int)) := by
  obtain ⟨fs, st, new, _, _, _, hloop, hnew, hr⟩ :=
    mergeBody_ok clock seedData registry xs ms r hdoc hrun
  obtain ⟨new', _, e1, e2, e3, _, _, _⟩ := mergeLoop_shape clock seedData _ st xs rfl hloop
  have hnn : new' = new := by
    rw [hnew] at e1
    exact (List.append_cancel_left (JsVal.arr.inj e1)).symm
  subst hnn
  simp only [Nat.zero_add] at e2 e3
  have hadd : r.addedCount = new'.length := by rw [hr]; exact e2
  have hdup : r.duplicateCount + new'.length = seedData.length := by rw [hr]; exact e3
  refine ⟨by omega, xs ++ new', ?_, by rw [List.length_append, hadd], ?_⟩
  · rw [hr]
    simp only [getProp]
    rw [lookupField_setField_ne "metadata" "servers" _ _ (by decide), lookupField_setField_self]
  · rw [hadd, ← List.length_append, hr]
    simp only [docCount, getProp]
    rw [lookupField_setField_self]
    simp only [getProp]
    rw [lookupField_setField_self]

/-- Witness of C14: the seed `b, b, a` against a registry holding `a`: one
added, two skipped, two servers. -/
theorem counter_accounting_witness :
    RegistryDocument registryWithA [recordA]
      [("count", JsVal.num 1), ("source", JsVal.str "seed")] ∧
    (∃ r, mergeBody sampleClock [seedB, seedB2, seedA2] registryWithA = Except.ok r ∧
      r.addedCount = 1 ∧ r.duplicateCount = 2 ∧
      r.addedCount + r.duplicateCount = [seedB, seedB2, seedA2].length ∧
      ∃ ys, getProp r.registry "servers" = Except.ok (JsVal.arr ys) ∧
        ys.length = [recordA].length + r.addedCount ∧
        docCount r.registry =
          Except.ok (JsVal.num (([recordA].length + r.addedCount : Nat) : Int))) :=
  have hdoc : RegistryDocument registryWithA [recordA]
      [("count", JsVal.num 1), ("source", JsVal.str "seed")] := ⟨_, rfl, rfl, rfl⟩
  ⟨hdoc, _, rfl, rfl, rfl,
    counter_accounting sampleClock [seedB, seedB2, seedA2] registryWithA [recordA] _ _ hdoc rfl⟩

/-- After a successful loop every seed name is the name of a record of
`servers`, stored before or appended. -/
theorem mergeLoop_complete (clock : Clock) (seeds : List Obj) :
    ∀ (st st' : LoopState) (xs : List JsVal), st.servers = JsVal.arr xs →
      mergeLoop clock seeds st = Except.ok st' →
      ∃ new, st'.servers = JsVal.arr (xs ++ new) ∧
        ∀ s ∈ seeds, ∃ e ∈ xs ++ new, recordName e = Except.ok (lookupField "name" s) := by
  induction seeds with
  | nil =>
    intro st st' xs hs h
    simp only [mergeLoop, Except.ok.injEq] at h
    subst h
    exact ⟨[], by simp [hs], by simp⟩
  | cons s rest ih =>
    intro st st' xs hs h
    obtain ⟨st1, hstep, hrest⟩ := mergeLoop_cons_ok clock s rest st st' h
    rcases mergeStep_ok clock st st1 s xs hs hstep with ⟨hscan, h1⟩ | ⟨_, h1⟩
    · have hs1 : st1.servers = JsVal.arr xs := by rw [h1]; exact hs
      obtain ⟨new, e1, e2⟩ := ih st1 st' xs hs1 hrest
      refine ⟨new, e1, ?_⟩
      intro t ht
      rcases List.mem_cons.mp ht with rfl | ht
      · obtain ⟨e, he, hc⟩ := arraySome_true _ _ hscan
        obtain ⟨m, hm, hst⟩ := nameMatches_ok _ e true hc
        exact ⟨e, List.mem_append_left _ he, by rw [hm, strictEq_eq m _ hst]⟩
      · exact e2 t ht
    · have hs1 : st1.servers =
          JsVal.arr (xs ++ [(convertSeedToRegistry clock st.tick s).1]) := by rw [h1]
      obtain ⟨new, e1, e2⟩ := ih st1 st' _ hs1 hrest
      refine ⟨(convertSeedToRegistry clock st.tick s).1 :: new, by rw [e1]; simp, ?_⟩
      intro t ht
      have happ : xs ++ (convertSeedToRegistry clock st.tick s).1 :: new =
          (xs ++ [(convertSeedToRegistry clock st.tick s).1]) ++ new := by simp
      rw [happ]
      rcases List.mem_cons.mp ht with rfl | ht
      · exact ⟨(convertSeedToRegistry clock st.tick t).1,
          List.mem_append_left _ (List.mem_append_right _ (List.mem_singleton_self _)),
          recordName_convert clock st.tick t⟩
      · exact e2 t ht

/-- C15 (completeness of the merge): after a successful merge pass every seed
entry's name is the `server.name` of at least one record of `servers`, and the
input records are still there. -/
theorem merge_complete (clock : Clock) (seedData : List Obj) (registry : JsVal)
    (xs : List JsVal) (ms : Obj) (r : MergeResult)
    (hdoc : RegistryDocument registry xs ms)
    (hrun : mergeBody clock seedData registry = Except.ok r) :
    ∃ new, getProp r.registry "servers" = Except.ok (JsVal.arr (xs ++ new)) ∧
      ∀ s ∈ seedData, ∃ e ∈ xs ++ new, recordName e = Except.ok (lookupField "name" s) := by
  obtain ⟨fs, st, new, _, _, _, hloop, hnew, hr⟩ :=
    mergeBody_ok clock seedData registry xs ms r hdoc hrun
  obtain ⟨new', e1, e2⟩ := mergeLoop_complete clock seedData _ st xs rfl hloop
  have hnn : new' = new := by
    rw [hnew] at e1
    exact (List.append_cancel_left (JsVal.arr.inj e1)).symm
  subst hnn
  refine ⟨new', ?_, e2⟩
  rw [hr]
  simp only [getProp]
  rw [lookupField_setField_ne "metadata" "servers" _ _ (by decide), lookupField_setField_self]

/-- Witness of C15: a seed with a stored name, a repeated new name and an
entry without a name. -/
theorem merge_complete_witness :
    RegistryDocument registryWithA [recordA]
      [("count", JsVal.num 1), ("source", JsVal.str "seed")] ∧
    (∃ r, mergeBody sampleClock [seedA2, seedB, seedBare, seedB2] registryWithA = Except.ok r ∧
      r.addedCount = 2 ∧ r.duplicateCount = 2 ∧
      ∃ new, getProp r.registry "servers" = Except.ok (JsVal.arr ([recordA] ++ new)) ∧
        ∀ s ∈ [seedA2, seedB, seedBare, seedB2],
          ∃ e ∈ [recordA] ++ new, recordName e = Except.ok (lookupField "name" s)) :=
  have hdoc : RegistryDocument registryWithA [recordA]
      [("count", JsVal.num 1), ("source", JsVal.str "seed")] := ⟨_, rfl, rfl, rfl⟩
  ⟨hdoc, _, rfl, rfl, rfl,
    merge_complete sampleClock [seedA2, seedB, seedBare, seedB2] registryWithA [recordA] _ _
      hdoc rfl⟩

/-! ## The transformer accepts every seed entry -/

theorem server_lookup_other (seedEntry : Obj) (k : String) (hk : k ≠ "packages") :
    lookupField k (seedEntry.filter (fun kv => kv.1 != "packages") ++
      [("packages", lookupField "packages" seedEntry)]) = lookupField k seedEntry := by
  rw [lookupField_append]
  by_cases hm : k ∈ (seedEntry.filter (fun kv => kv.1 != "packages")).map Prod.fst
  · rw [if_pos hm, lookupField_filter_ne k "packages" seedEntry hk]
  · rw [if_neg hm]
    have hm' : k ∉ seedEntry.map Prod.fst :=
      fun h => hm ((keys_filter_ne k "packages" seedEntry hk).mpr h)
    rw [lookupField_of_not_mem k seedEntry hm']
    simp [lookupField, Ne.symm hk]

theorem server_keys_other (seedEntry : Obj) (k : String) (hk : k ≠ "packages") :
    k ∈ (seedEntry.filter (fun kv => kv.1 != "packages") ++
      [("packages", lookupField "packages" seedEntry)]).map Prod.fst ↔
    k ∈ seedEntry.map Prod.fst := by
  rw [List.map_append, List.mem_append, keys_filter_ne k "packages" seedEntry hk]
  simp [hk]

theorem server_lookup_packages (seedEntry : Obj) :
    lookupField "packages" (seedEntry.filter (fun kv => kv.1 != "packages") ++
      [("packages", lookupField "packages" seedEntry)]) = lookupField "packages" seedEntry := by
  rw [lookupField_append]
  have hm : "packages" ∉ (seedEntry.filter (fun kv => kv.1 != "packages")).map Prod.fst := by
    intro hmem
    have := count_keys_filter_self "packages" seedEntry
    rw [List.count_eq_zero] at this
    exact this hmem
  rw [if_neg hm]
  simp [lookupField]

/-- C12 (the transformer has no error conditions): on every seed entry, also
one without `packages` and one without `name`, `convertSeedToRegistry` returns
a record with a `server` object and an envelope; without `packages` in the seed
entry `server.packages` is `undefined` while every other property is copied
with its value, and without `name` in the seed entry `server.name` is
`undefined`. -/
theorem transformer_accepts_every_seed (clock : Clock) (tick : Nat) (seedEntry : Obj) :
    ∃ server envelope,
      convertSeedToRegistry clock tick seedEntry =
        (JsVal.obj [("server", JsVal.obj server), ("_meta", JsVal.obj envelope)], tick + 2) ∧
      (∀ k, k ≠ "packages" → lookupField k server = lookupField k seedEntry) ∧
      (∀ k, k ≠ "packages" → (k ∈ server.map Prod.fst ↔ k ∈ seedEntry.map Prod.fst)) ∧
      ("packages" ∉ seedEntry.map Prod.fst → lookupField "packages" server = JsVal.undefined) ∧
      ("name" ∉ seedEntry.map Prod.fst → lookupField "name" server = JsVal.undefined) := by
  refine ⟨seedEntry.filter (fun kv => kv.1 != "packages") ++
      [("packages", lookupField "packages" seedEntry)], _, rfl,
    server_lookup_other seedEntry, server_keys_other seedEntry, ?_, ?_⟩
  · intro hp
    rw [server_lookup_packages, lookupField_of_not_mem _ _ hp]
  · intro hn
    rw [server_lookup_other seedEntry "name" (by decide), lookupField_of_not_mem _ _ hn]

/-! ## Merging into an empty registry -/

theorem convertAll_length (clock : Clock) (seeds : List Obj) :
    ∀ tick, (convertAll clock tick seeds).length = seeds.length := by
  induction seeds with
  | nil => intro _; rfl
  | cons s rest ih => intro tick; simp [convertAll, ih]

theorem convertAll_getElem (clock : Clock) (seeds : List Obj) :
    ∀ (tick i : Nat) (s : Obj), seeds[i]? = some s →
      (convertAll clock tick seeds)[i]? = some (convertSeedToRegistry clock (tick + 2 * i) s).1 := by
  induction seeds with
  | nil => intro tick i s h; simp at h
  | cons s0 rest ih =>
    intro tick i s h
    cases i with
    | zero =>
      simp only [List.getElem?_cons_zero, Option.some.injEq] at h
      subst h
      simp [convertAll]
    | succ i =>
      simp only [List.getElem?_cons_succ] at h
      simp only [convertAll, List.getElem?_cons_succ]
      rw [ih _ i s h]
      have : (convertSeedToRegistry clock tick s0).2 + 2 * i = tick + 2 * (i + 1) := by
        simp only [convertSeedToRegistry]; omega
      rw [this]

/-- When no seed name is the name of a stored record and the seed names are
pairwise distinct, a successful loop has appended the transformation of every
seed entry, in input order. -/
theorem mergeLoop_all_added (clock : Clock) (seeds : List Obj) :
    ∀ (st st' : LoopState) (xs : List JsVal), st.servers = JsVal.arr xs →
      (∀ s ∈ seeds, ∀ e ∈ xs, recordName e ≠ Except.ok (lookupField "name" s)) →
      (seeds.map (lookupField "name")).Nodup →
      mergeLoop clock seeds st = Except.ok st' →
      st' = {
        servers := JsVal.arr (xs ++ convertAll clock st.tick seeds)
        addedCount := st.addedCount + seeds.length
        duplicateCount := st.duplicateCount
        tick := st.tick + 2 * seeds.length
        log := st.log ++ seeds.map
          (fun s => LogEvent.added (lookupField "name" s) (lookupField "version" s)) } := by
  induction seeds with
  | nil =>
    intro st st' xs hs _ _ h
    simp only [mergeLoop, Except.ok.injEq] at h
    subst h
    simp [convertAll, ← hs]
  | cons s rest ih =>
    intro st st' xs hs hnew hnd h
    rw [List.map_cons, List.nodup_cons] at hnd
    obtain ⟨st1, hstep, hrest⟩ := mergeLoop_cons_ok clock s rest st st' h
    rcases mergeStep_ok clock st st1 s xs hs hstep with ⟨hscan, _⟩ | ⟨_, h1⟩
    · exfalso
      obtain ⟨e, he, hc⟩ := arraySome_true _ _ hscan
      obtain ⟨m, hm, hst⟩ := nameMatches_ok _ e true hc
      exact hnew s (List.mem_cons_self _ _) e he (by rw [hm, strictEq_eq m _ hst])
    · have hs1 : st1.servers =
          JsVal.arr (xs ++ [(convertSeedToRegistry clock st.tick s).1]) := by rw [h1]
      have hnew1 : ∀ t ∈ rest, ∀ e ∈ xs ++ [(convertSeedToRegistry clock st.tick s).1],
          recordName e ≠ Except.ok (lookupField "name" t) := by
        intro t ht e he
        rcases List.mem_append.mp he with he | he
        · exact hnew t (List.mem_cons_of_mem _ ht) e he
        · rw [List.mem_singleton.mp he, recordName_convert]
          intro hc
          exact hnd.1 (by rw [Except.ok.inj hc]; exact List.mem_map_of_mem _ ht)
      have hfin := ih st1 st' _ hs1 hnew1 hnd.2 hrest
      rw [hfin, h1]
      simp only [convertAll, convertSeedToRegistry, List.length_cons, List.map_cons,
        List.append_assoc, List.singleton_append]
      rw [show st.addedCount + 1 + rest.length = st.addedCount + (rest.length + 1) by omega,
        show st.tick + 2 + 2 * rest.length = st.tick + 2 * (rest.length + 1) by omega]

/-- C11 (merge into an empty registry): for a seed list with pairwise distinct
names and a registry document with `servers = []`, every successful merge makes
`servers` the transformation of each seed entry in input order (the `i`-th
record is the transformation of the `i`-th seed entry), with added the number
of seed entries, skipped 0 and `metadata.count` the number of seed entries; and
the merge succeeds whenever the name and version of every seed entry convert
to a string, as the strings of the data model do. -/
theorem merge_into_empty (clock : Clock) (seedData : List Obj) (registry : JsVal) (ms : Obj)
    (hdoc : RegistryDocument registry [] ms)
    (hdistinct : (seedData.map (lookupField "name")).Nodup) :
    (∀ r, mergeBody clock seedData registry = Except.ok r →
      getProp r.registry "servers" = Except.ok (JsVal.arr (convertAll clock 0 seedData)) ∧
      (convertAll clock 0 seedData).length = seedData.length ∧
      (∀ (i : Nat) (s : Obj), seedData[i]? = some s →
        (convertAll clock 0 seedData)[i]? = some (convertSeedToRegistry clock (2 * i) s).1) ∧
      r.addedCount = seedData.length ∧ r.duplicateCount = 0 ∧
      docCount r.registry = Except.ok (JsVal.num (seedData.length : Int))) ∧
    (SeedPrintable seedData → ∃ r, mergeBody clock seedData registry = Except.ok r) := by
  refine ⟨?_, mergeBody_succeeds clock seedData registry [] ms hdoc (by simp)⟩
  intro r hrun
  obtain ⟨fs, st, new, _, _, _, hloop, hnew, hr⟩ :=
    mergeBody_ok clock seedData registry [] ms r hdoc hrun
  have hst := mergeLoop_all_added clock seedData _ st [] rfl (by simp) hdistinct hloop
  simp only [List.nil_append, Nat.zero_add] at hst hnew hr
  have hnn : new = convertAll clock 0 seedData := by
    rw [hst] at hnew
    exact (JsVal.arr.inj hnew).symm
  subst hnn
  refine ⟨?_, convertAll_length clock seedData 0, ?_, ?_, ?_, ?_⟩
  · rw [hr]
    simp only [getProp]
    rw [lookupField_setField_ne "metadata" "servers" _ _ (by decide), lookupField_setField_self]
  · intro i s h
    have := convertAll_getElem clock seedData 0 i s h
    rw [Nat.zero_add] at this
    exact this
  · rw [hr, hst]
  · rw [hr, hst]
  · rw [hr]
    simp only [docCount, getProp]
    rw [lookupField_setField_self]
    simp only [getProp]
    rw [lookupField_setField_self, convertAll_length]

/-- Witness of C11: Scenario A, the seed entry `a` version `1.0` with the
package `x = 1` merged into the empty registry. -/
theorem merge_into_empty_witness :
    RegistryDocument registryScenarioA [] [("count", JsVal.num 0)] ∧
    ([seedA].map (lookupField "name")).Nodup ∧
    SeedPrintable [seedA] ∧
    ((∀ r, mergeBody sampleClock [seedA] registryScenarioA = Except.ok r →
      getProp r.registry "servers" = Except.ok (JsVal.arr (convertAll sampleClock 0 [seedA])) ∧
      (convertAll sampleClock 0 [seedA]).length = [seedA].length ∧
      (∀ (i : Nat) (s : Obj), [seedA][i]? = some s →
        (convertAll sampleClock 0 [seedA])[i]? =
          some (convertSeedToRegistry sampleClock (2 * i) s).1) ∧
      r.addedCount = [seedA].length ∧ r.duplicateCount = 0 ∧
      docCount r.registry = Except.ok (JsVal.num ([seedA].length : Int))) ∧
    (SeedPrintable [seedA] →
      ∃ r, mergeBody sampleClock [seedA] registryScenarioA = Except.ok r)) ∧
    (∃ r, mergeBody sampleClock [seedA] registryScenarioA = Except.ok r ∧
      r.addedCount = 1 ∧ r.duplicateCount = 0 ∧
      docCount r.registry = Except.ok (JsVal.num 1)) ∧
    (∃ record, convertAll sampleClock 0 [seedA] = [record] ∧
      getPath record ["server", "name"] = Except.ok (JsVal.str "a") ∧
      getPath record ["server", "packages"] =
        Except.ok (JsVal.arr [JsVal.obj [("x", JsVal.num 1)]]) ∧
      getPath record ["_meta", officialKey, "status"] = Except.ok (JsVal.str "active")) :=
  have hdoc : RegistryDocument registryScenarioA [] [("count", JsVal.num 0)] :=
    ⟨_, rfl, rfl, rfl⟩
  have hnd : ([seedA].map (lookupField "name")).Nodup := by decide
  have hprint : SeedPrintable [seedA] := by
    intro s hs
    rw [List.mem_singleton.mp hs]
    exact ⟨rfl, rfl⟩
  ⟨hdoc, hnd, hprint, merge_into_empty sampleClock [seedA] registryScenarioA _ hdoc hnd,
    ⟨_, rfl, rfl, rfl, rfl⟩, _, rfl, by decide, by decide, by decide⟩

/-- A seed entry whose version does not convert to a string ends the run in
the `catch`: exit code 1, nothing written. -/
theorem unprintable_version_throws :
    mergeBody sampleClock [seedUnprintable] registryScenarioA = Except.error JsErr.typeError ∧
    (main sampleClock [seedUnprintable] registryScenarioA).exitCode = 1 ∧
    (main sampleClock [seedUnprintable] registryScenarioA).registryFile = registryScenarioA := by
  decide

/-! ## The scan and the name set -/

theorem specRegisteredNames_append (xs ys : List JsVal) :
    specRegisteredNames (xs ++ ys) = specRegisteredNames xs ++ specRegisteredNames ys := by
  simp [specRegisteredNames, List.filterMap_append]

theorem specRegisteredNames_convert (clock : Clock) (tick : Nat) (s : Obj) :
    specRegisteredNames [(convertSeedToRegistry clock tick s).1] = [lookupField "name" s] := by
  simp only [specRegisteredNames, List.filterMap_cons, recordName_convert, List.filterMap_nil]

theorem mem_specRegisteredNames (n : JsVal) (ys : List JsVal) :
    n ∈ specRegisteredNames ys ↔ ∃ e ∈ ys, recordName e = Except.ok n := by
  simp only [specRegisteredNames, List.mem_filterMap]
  constructor
  · rintro ⟨e, he, h⟩
    refine ⟨e, he, ?_⟩
    cases hr : recordName e with
    | error err => simp [hr] at h
    | ok m =>
      simp only [hr, Option.some.injEq] at h
      rw [h]
  · rintro ⟨e, he, h⟩
    exact ⟨e, he, by simp [h]⟩

theorem specNameSetContains_iff (names : List JsVal) (n : JsVal) :
    specNameSetContains names n = true ↔ n ∈ names := by
  simp only [specNameSetContains, List.any_eq_true, JsVal.beq_iff]
  constructor
  · rintro ⟨m, hm, rfl⟩
    exact hm
  · intro h
    exact ⟨n, h, rfl⟩

/-- For a primitive name the result of the scan of `servers` is the result of
the look-up in the set of the names of `servers`. -/
theorem scan_eq_lookup (n : JsVal) (hn : isPrimitive n = true) (ys : List JsVal) (b : Bool)
    (h : arraySome (nameMatches n) ys = Except.ok b) :
    specNameSetContains (specRegisteredNames ys) n = b := by
  cases b with
  | true =>
    rw [specNameSetContains_iff, mem_specRegisteredNames]
    obtain ⟨e, he, hc⟩ := arraySome_true _ _ h
    obtain ⟨m, hm, hst⟩ := nameMatches_ok n e true hc
    exact ⟨e, he, by rw [hm, strictEq_eq m n hst]⟩
  | false =>
    rw [Bool.eq_false_iff]
    intro hc
    rw [specNameSetContains_iff, mem_specRegisteredNames] at hc
    obtain ⟨e, he, hr⟩ := hc
    exact recordName_ne_of_scan_false n ys hn h e he hr

/-- With primitive seed names a successful loop of the code ends with the
servers and the counters of the spec's pass started from the same servers. -/
theorem mergeLoop_refines (clock : Clock) (seeds : List Obj) (hprim : SeedNamesPrimitive seeds) :
    ∀ (st st' : LoopState) (ys : List JsVal), st.servers = JsVal.arr ys →
      mergeLoop clock seeds st = Except.ok st' →
      st'.servers = JsVal.arr (specMergeLoop clock seeds
        ⟨specRegisteredNames ys, ys, st.addedCount, st.duplicateCount, st.tick⟩).servers ∧
      st'.addedCount = (specMergeLoop clock seeds
        ⟨specRegisteredNames ys, ys, st.addedCount, st.duplicateCount, st.tick⟩).added ∧
      st'.duplicateCount = (specMergeLoop clock seeds
        ⟨specRegisteredNames ys, ys, st.addedCount, st.duplicateCount, st.tick⟩).skipped := by
  induction seeds with
  | nil =>
    intro st st' ys hs h
    simp only [mergeLoop, Except.ok.injEq] at h
    subst h
    exact ⟨hs, rfl, rfl⟩
  | cons s rest ih =>
    intro st st' ys hs h
    have hps : isPrimitive (lookupField "name" s) = true := hprim s (List.mem_cons_self _ _)
    have hprest : SeedNamesPrimitive rest := fun t ht => hprim t (List.mem_cons_of_mem _ ht)
    obtain ⟨st1, hstep, hrest⟩ := mergeLoop_cons_ok clock s rest st st' h
    rcases mergeStep_ok clock st st1 s ys hs hstep with ⟨hscan, h1⟩ | ⟨hscan, h1⟩
    · have hs1 : st1.servers = JsVal.arr ys := by rw [h1]; exact hs
      have hlook := scan_eq_lookup _ hps ys true hscan
      have := ih hprest st1 st' ys hs1 hrest
      simp only [specMergeLoop, hlook, if_true]
      rw [h1] at this
      exact this
    · have hs1 : st1.servers =
          JsVal.arr (ys ++ [(convertSeedToRegistry clock st.tick s).1]) := by rw [h1]
      have hlook := scan_eq_lookup _ hps ys false hscan
      have := ih hprest st1 st' _ hs1 hrest
      simp only [specMergeLoop, hlook]
      rw [specRegisteredNames_append, specRegisteredNames_convert, h1] at this
      exact this

/-- C13 (the scan refines the name set): with seed names that are primitive
values, every successful merge of the code ends with the servers, the added
count and the skipped count of the spec's merger, which computes the name set
once and adds each inserted name to it; and the code's merge succeeds whenever
`entry.server.name` can be read on every stored record and the name and
version of every seed entry convert to a string. -/
theorem scan_refines_name_set (clock : Clock) (seedData : List Obj) (registry : JsVal)
    (xs : List JsVal) (ms : Obj)
    (hdoc : RegistryDocument registry xs ms)
    (hprim : SeedNamesPrimitive seedData) :
    (∀ r, mergeBody clock seedData registry = Except.ok r →
      getProp r.registry "servers" =
        Except.ok (JsVal.arr (specMerge clock seedData xs).servers) ∧
      r.addedCount = (specMerge clock seedData xs).added ∧
      r.duplicateCount = (specMerge clock seedData xs).skipped) ∧
    ((∀ e ∈ xs, ∃ m, recordName e = Except.ok m) → SeedPrintable seedData →
      ∃ r, mergeBody clock seedData registry = Except.ok r) := by
  refine ⟨?_, mergeBody_succeeds clock seedData registry xs ms hdoc⟩
  intro r hrun
  obtain ⟨fs, st, new, _, _, _, hloop, hnew, hr⟩ :=
    mergeBody_ok clock seedData registry xs ms r hdoc hrun
  obtain ⟨e1, e2, e3⟩ := mergeLoop_refines clock seedData hprim _ st xs rfl hloop
  rw [hnew] at e1
  have hys := JsVal.arr.inj e1
  refine ⟨?_, ?_, ?_⟩
  · rw [hr]
    simp only [getProp]
    rw [lookupField_setField_ne "metadata" "servers" _ _ (by decide), lookupField_setField_self,
      hys]
    rfl
  · rw [hr]; exact e2
  · rw [hr]; exact e3

/-- Witness of C13: a seed with a stored name, a repeated new name and an
entry without a name, against a registry holding `a`. -/
theorem scan_refines_name_set_witness :
    RegistryDocument registryWithA [recordA]
      [("count", JsVal.num 1), ("source", JsVal.str "seed")] ∧
    SeedNamesPrimitive [seedB, seedB2, seedA2] ∧
    (∃ r, mergeBody sampleClock [seedB, seedB2, seedA2] registryWithA = Except.ok r ∧
      r.addedCount = 1 ∧ r.duplicateCount = 2) ∧
    (specMerge sampleClock [seedB, seedB2, seedA2] [recordA]).added = 1 ∧
    (specMerge sampleClock [seedB, seedB2, seedA2] [recordA]).skipped = 2 ∧
    ((∀ r, mergeBody sampleClock [seedB, seedB2, seedA2] registryWithA = Except.ok r →
      getProp r.registry "servers" =
        Except.ok (JsVal.arr (specMerge sampleClock [seedB, seedB2, seedA2] [recordA]).servers) ∧
      r.addedCount = (specMerge sampleClock [seedB, seedB2, seedA2] [recordA]).added ∧
      r.duplicateCount = (specMerge sampleClock [seedB, seedB2, seedA2] [recordA]).skipped) ∧
    ((∀ e ∈ [recordA], ∃ m, recordName e = Except.ok m) →
      SeedPrintable [seedB, seedB2, seedA2] →
      ∃ r, mergeBody sampleClock [seedB, seedB2, seedA2] registryWithA = Except.ok r)) :=
  have hdoc : RegistryDocument registryWithA [recordA]
      [("count", JsVal.num 1), ("source", JsVal.str "seed")] := ⟨_, rfl, rfl, rfl⟩
  ⟨hdoc, sample_names_primitive, ⟨_, rfl, rfl, rfl⟩, by decide, by decide,
    scan_refines_name_set sampleClock [seedB, seedB2, seedA2] registryWithA [recordA] _
      hdoc sample_names_primitive⟩

end MergeSeed
